import Mathlib

/-!
Verification development for the Polymarket copy-trader analyzer
(`src/polymarket_analyzer.py`).

The source computes with Python floats; following the spec's design note
(§9, "Floating-point money arithmetic ... fixed-point/decimal ... the exact
formulas given above"), sizes, prices and money amounts are embedded as
exact rationals, and the transcendental functions of the metrics stage
(`math.exp`, `math.log10`, `numpy` standard deviation) as the corresponding
real functions.  The source's `round(x, n)` calls when packing result
dictionaries are display precision and are embedded as the identity.
Market resolution lookups (`fetch_market_resolution`) are network calls;
they are embedded as an explicit resolver argument
`resolver : String -> Resolution`, the memoization cache being
observationally irrelevant for a pure resolver.
-/

namespace Polymarket

/-- Trade side, `side in ['BUY', 'SELL']` after normalization. -/
inductive Side where
  | buy : Side
  | sell : Side
deriving DecidableEq, Repr

/-- A normalized trade record (the dict built by `normalize_trade`):
timestamp, market id, asset id, side, size, price. -/
structure Trade where
  timestamp : ℚ
  market : String
  asset : String
  side : Side
  size : ℚ
  price : ℚ
deriving DecidableEq, Repr

/-- One FIFO lot `(shares, cost_per_share)` of `position_queue`. -/
structure Lot where
  size : ℚ
  price : ℚ
deriving DecidableEq, Repr

/-- Sum of lot sizes, `sum(lot[0] for lot in position_queue)`. -/
def lotSum (q : List Lot) : ℚ :=
  (q.map (fun l => l.size)).sum

/-- Sum of lot costs, `sum(lot[0] * lot[1] for lot in position_queue)`. -/
def lotCost (q : List Lot) : ℚ :=
  (q.map (fun l => l.size * l.price)).sum

/-- The SELL matching loop of `calculate_fifo_pnl_with_resolution`
(lines 659-671): consume from the queue head while sell volume remains
and lots exist; a head lot with `lot_size <= sell_remaining` is removed
whole and its full cost accrued, otherwise it is split in place.
Returns the accrued `sell_cost` and the remaining queue. -/
def fifoSell (rem : ℚ) (q : List Lot) : ℚ × List Lot :=
  match q with
  | [] => (0, [])
  | lot :: rest =>
    if 0 < rem then
      if lot.size ≤ rem then
        let r := fifoSell (rem - lot.size) rest
        (lot.size * lot.price + r.1, r.2)
      else
        (rem * lot.price, ⟨lot.size - rem, lot.price⟩ :: rest)
    else
      (0, lot :: rest)

/-- Per-group replay state: the FIFO queue, `realized_pnl`, `total_volume`. -/
structure LedgerState where
  queue : List Lot
  realized_pnl : ℚ
  total_volume : ℚ
deriving DecidableEq, Repr

/-- One iteration of the per-trade loop (lines 646-673): a BUY appends a
lot, a SELL runs the FIFO matching loop and accrues
`sell_revenue - sell_cost` into `realized_pnl`. -/
def stepTrade (st : LedgerState) (t : Trade) : LedgerState :=
  let st := { st with total_volume := st.total_volume + t.size * t.price }
  match t.side with
  | Side.buy =>
      { st with queue := st.queue ++ [⟨t.size, t.price⟩] }
  | Side.sell =>
      let r := fifoSell t.size st.queue
      { st with
          queue := r.2,
          realized_pnl := st.realized_pnl + (t.size * t.price - r.1) }

/-- Replay of a group's trade sequence from the empty position. -/
def replay (ts : List Trade) : LedgerState :=
  ts.foldl stepTrade ⟨[], 0, 0⟩

/-- Total BUY volume (in shares) of a trade sequence. -/
def buyVol (ts : List Trade) : ℚ :=
  ((ts.filter (fun t => t.side = Side.buy)).map (fun t => t.size)).sum

/-- Total SELL volume (in shares) of a trade sequence. -/
def sellVol (ts : List Trade) : ℚ :=
  ((ts.filter (fun t => t.side = Side.sell)).map (fun t => t.size)).sum

/-- Total BUY notional (`size * price` summed over buys). -/
def buyCost (ts : List Trade) : ℚ :=
  ((ts.filter (fun t => t.side = Side.buy)).map (fun t => t.size * t.price)).sum

/-- Total SELL notional (`size * price` summed over sells). -/
def sellRevenue (ts : List Trade) : ℚ :=
  ((ts.filter (fun t => t.side = Side.sell)).map (fun t => t.size * t.price)).sum

/-- Shares held after a trade sequence, tracked abstractly: a BUY adds its
size, a SELL removes `min(size, held)` (a sell can only consume what the
lots hold). -/
def heldAux (held : ℚ) : List Trade → ℚ
  | [] => held
  | t :: ts =>
    match t.side with
    | Side.buy => heldAux (held + t.size) ts
    | Side.sell => heldAux (held - min t.size held) ts

/-- Sell volume actually matched against lots: each SELL matches
`min(size, held)` shares. -/
def matchedAux (held : ℚ) : List Trade → ℚ
  | [] => 0
  | t :: ts =>
    match t.side with
    | Side.buy => matchedAux (held + t.size) ts
    | Side.sell => min t.size held + matchedAux (held - min t.size held) ts

/-- Sell volume matched against lots over a whole group replay. -/
def matchedVol (ts : List Trade) : ℚ :=
  matchedAux 0 ts

/-- Holds when no SELL's volume exceeds the shares held at its point of
the sequence (starting from `held` shares). -/
def noOversellAux (held : ℚ) : List Trade → Bool
  | [] => true
  | t :: ts =>
    match t.side with
    | Side.buy => noOversellAux (held + t.size) ts
    | Side.sell => decide (t.size ≤ held) && noOversellAux (held - t.size) ts

/-- Resolver answer for a market (§4.2 contract, the return value of
`fetch_market_resolution`): `RESOLVED` with an optional winning asset,
`UNRESOLVED`, or failure (`None`, i.e. unknown). -/
inductive Resolution where
  | resolved : Option String → Resolution
  | unresolved : Resolution
  | unknown : Resolution
deriving DecidableEq, Repr

/-- Token classification of `_determine_token_type`: literal label lookup
after upper-casing; returns the strings used by the source. -/
def determine_token_type (asset_id : String) : String :=
  if asset_id = "" ∨ asset_id = "unknown" then "UNKNOWN"
  else
    let u := asset_id.toUpper
    if u = "YES" ∨ u = "TRUE" ∨ u = "1" then "YES"
    else if u = "NO" ∨ u = "FALSE" ∨ u = "0" then "NO"
    else "UNKNOWN"

/-- The `position_won` decision of lines 693-704.  The guard
`if winning_asset:` is Python truthiness: `None` and the empty string are
falsy, so no clause fires for them. -/
def position_won (asset_id token_type : String) (winner : Option String) : Bool :=
  match winner with
  | none => false
  | some w =>
    if w = "" then false
    else if asset_id = w then true
    else if token_type = "YES" ∧ (w.toUpper = "YES" ∨ w.toUpper = "1" ∨ w.toUpper = "TRUE") then true
    else if token_type = "NO" ∧ (w.toUpper = "NO" ∨ w.toUpper = "0" ∨ w.toUpper = "FALSE") then true
    else false

/-- One entry of `market_results` (lines 751-763); statuses are the
source's strings `open`, `won`, `lost`, `unknown`. -/
structure MarketResult where
  market : String
  asset : String
  token_type : String
  realized_pnl : ℚ
  unrealized_pnl : ℚ
  total_pnl : ℚ
  position : ℚ
  position_cost : ℚ
  position_status : String
  volume : ℚ
  trade_count : ℕ
deriving DecidableEq, Repr

/-- One entry of `current_positions` (lines 739-747). -/
structure CurrentPosition where
  market : String
  asset : String
  token_type : String
  size : ℚ
  avg_price : ℚ
  current_value : ℚ
  last_trade_ts : ℚ
deriving DecidableEq, Repr

/-- Ascending (stable) sort by timestamp, `group.sort_values('timestamp')`. -/
def sortByTimestamp (ts : List Trade) : List Trade :=
  ts.insertionSort (fun a b => a.timestamp ≤ b.timestamp)

/-- Price of the last trade of the (sorted) group, `trades.iloc[-1]['price']`. -/
def last_price (ts : List Trade) : ℚ :=
  (ts.getLast?).elim 0 (fun t => t.price)

/-- Timestamp of the last trade of the (sorted) group. -/
def last_ts (ts : List Trade) : ℚ :=
  (ts.getLast?).elim 0 (fun t => t.timestamp)

/-- The body of the group loop of `calculate_fifo_pnl_with_resolution`
(lines 637-763) for one `(market, asset)` group: sort by timestamp, replay
the FIFO ledger, then value the remaining position.  The resolver is
consulted only when `remaining_shares > 0.01`; below that materiality
threshold the position is trivially `open` with zero unrealized PnL.
Returns the group's `MarketResult` and its `current_positions` entry, if
any (appended only inside the `remaining_shares > 0.01` block and only
for status `open`). -/
def processGroup (market_id asset_id : String) (res : Resolution)
    (group : List Trade) : MarketResult × Option CurrentPosition :=
  let trades := sortByTimestamp group
  let token_type := determine_token_type asset_id
  let st := replay trades
  let remaining_shares := lotSum st.queue
  let remaining_cost := lotCost st.queue
  let valuation : ℚ × String :=
    if 1/100 < remaining_shares then
      match res with
      | Resolution.resolved winner =>
          if position_won asset_id token_type winner then
            (remaining_shares * 1 - remaining_cost, "won")
          else
            (0 - remaining_cost, "lost")
      | Resolution.unresolved =>
          (remaining_shares * last_price trades - remaining_cost, "open")
      | Resolution.unknown =>
          (remaining_shares * last_price trades - remaining_cost, "unknown")
    else (0, "open")
  let unrealized_pnl := valuation.1
  let position_status := valuation.2
  let pos : Option CurrentPosition :=
    if 1/100 < remaining_shares ∧ position_status = "open" then
      some
        { market := market_id
          asset := asset_id
          token_type := token_type
          size := remaining_shares
          avg_price := if 0 < remaining_shares then remaining_cost / remaining_shares else 0
          current_value := unrealized_pnl + remaining_cost
          last_trade_ts := last_ts trades }
    else none
  ({ market := market_id
     asset := asset_id
     token_type := token_type
     realized_pnl := st.realized_pnl
     unrealized_pnl := unrealized_pnl
     total_pnl := st.realized_pnl + unrealized_pnl
     position := remaining_shares
     position_cost := remaining_cost
     position_status := position_status
     volume := st.total_volume
     trade_count := trades.length }, pos)

/-- The group keys of `trades_df.groupby(['market', 'asset'])`: each
distinct `(market, asset)` pair exactly once (the emitted per-group
results and aggregates below are insensitive to key order). -/
def groupKeys (ts : List Trade) : List (String × String) :=
  (ts.map (fun t => (t.market, t.asset))).dedup

/-- `calculate_fifo_pnl_with_resolution`: run `processGroup` on every
`(market, asset)` group, collecting the per-group results and the open
`current_positions` entries.  The resolver answer for a group is
`resolver market` (`fetch_market_resolution` ignores its `asset_id`
argument and caches by market only). -/
def calculate_fifo_pnl_with_resolution (resolver : String → Resolution)
    (ts : List Trade) : List MarketResult × List CurrentPosition :=
  let per := (groupKeys ts).map (fun k =>
    processGroup k.1 k.2 (resolver k.1)
      (ts.filter (fun t => t.market = k.1 ∧ t.asset = k.2)))
  (per.map (fun p => p.1), per.filterMap (fun p => p.2))

/-- Configuration constants (lines 230-237). -/
def MIN_TRADES : ℕ := 10

/-- Minimum win rate filter value (line 231). -/
def MIN_WIN_RATE : ℚ := 1/2

/-- Minimum distinct-market count (line 232). -/
def MIN_MARKETS : ℕ := 3

/-- Average trade notional ceiling (line 233). -/
def MAX_AVG_TRADE_SIZE : ℚ := 5000

/-- Average buy price ceiling (line 234). -/
def MAX_AVG_BUY_PRICE : ℚ := 98/100

/-- ROI floor (line 235). -/
def MIN_ROI : ℚ := 5/100

/-- Composite score floor (line 236). -/
def MIN_SCORE : ℚ := 5

/-- Recency half-life in days (line 237). -/
def RECENCY_HALF_LIFE_DAYS : ℚ := 30

/-- Arithmetic mean of a list (`pandas.Series.mean`, `numpy.mean`). -/
def listMean (l : List ℚ) : ℚ :=
  l.sum / l.length

/-- Population variance (`numpy.std` squared, `ddof = 0`). -/
def npVariance (l : List ℚ) : ℚ :=
  listMean (l.map (fun x => (x - listMean l) ^ 2))

/-- Minimum of a list of rationals (`Series.min`; 0 on empty, unused). -/
def listMin (l : List ℚ) : ℚ :=
  match l with
  | [] => 0
  | x :: xs => xs.foldl min x

/-- Maximum of a list of rationals (`Series.max`; 0 on empty, unused). -/
def listMax (l : List ℚ) : ℚ :=
  match l with
  | [] => 0
  | x :: xs => xs.foldl max x

/-- Median of a list (`pandas.Series.median`): sort ascending, take the
middle element, or the mean of the two middle elements for even length. -/
def pdMedian (l : List ℚ) : ℚ :=
  let s := l.insertionSort (fun a b => a ≤ b)
  let n := s.length
  if n = 0 then 0
  else if n % 2 = 1 then s.getD (n / 2) 0
  else (s.getD (n / 2 - 1) 0 + s.getD (n / 2) 0) / 2

/-- The Sharpe-like computation of lines 874-881 on a list of per-market
returns: 0 when fewer than two entries, otherwise `mean / std` with a
zero-standard-deviation guard (`numpy` population standard deviation). -/
noncomputable def sharpe_of (returns : List ℚ) : ℝ :=
  if 1 < returns.length then
    let avg_return : ℝ := (listMean returns : ℝ)
    let std_return : ℝ := Real.sqrt ((npVariance returns : ℚ) : ℝ)
    if 0 < std_return then avg_return / std_return else 0
  else 0

/-- The recency factor of line 890:
`max(math.exp(-0.693 * days_since_active / RECENCY_HALF_LIFE_DAYS), 0.05)`.
Note the source's decay constant is the literal `0.693`. -/
noncomputable def recency_of (days_since_active : ℚ) : ℝ :=
  max (Real.exp (-(693/1000) * (days_since_active : ℝ) / (RECENCY_HALF_LIFE_DAYS : ℚ))) (5/100)

/-- The composite score polynomial of lines 930-936, with `math.log10`
embedded as `Real.logb 10`. -/
noncomputable def composite_score (roi win_rate : ℚ) (sharpe : ℝ) (trade_count : ℕ)
    (median_trade : ℚ) (recency : ℝ) : ℝ :=
  (min ((roi : ℝ) * 100) 200 * (25/100)
    + (win_rate : ℝ) * 100 * (25/100)
    + max sharpe (-2) * 15 * (20/100)
    + Real.logb 10 ((trade_count : ℝ) + 1) * 15 * (15/100)
    + (100 / ((median_trade : ℝ) + 50)) * 20 * (15/100)) * recency

/-- The trader metrics record returned by `analyze_trader` (lines
943-970), restricted to the quantities the claims are about; numeric
values are kept exact (the source applies display rounding when packing
the dict). -/
structure Metrics where
  score : ℝ
  roi : ℚ
  win_rate : ℚ
  sharpe : ℝ
  total_pnl : ℚ
  capital_deployed : ℚ
  trades : ℕ
  markets : ℕ
  profitable_markets : ℕ
  losing_markets : ℕ
  median_trade : ℚ
  avg_trade : ℚ
  active_days : ℚ
  recency : ℝ
  current_positions : List CurrentPosition

/-- `unique_markets` (line 791): distinct market ids. -/
def unique_markets_of (trades : List Trade) : ℕ :=
  ((trades.map (fun t => t.market)).dedup).length

/-- `buys` (line 798): the BUY rows. -/
def buys_of (trades : List Trade) : List Trade :=
  trades.filter (fun t => t.side = Side.buy)

/-- `avg_buy_price` (line 799); 1.0 when there are no buys. -/
def avg_buy_price_of (trades : List Trade) : ℚ :=
  if (buys_of trades).isEmpty then 1 else listMean ((buys_of trades).map (fun t => t.price))

/-- `trade_values` (line 806): per-trade notionals. -/
def trade_values_of (trades : List Trade) : List ℚ :=
  trades.map (fun t => t.size * t.price)

/-- `avg_trade_size` (line 807). -/
def avg_trade_of (trades : List Trade) : ℚ :=
  listMean (trade_values_of trades)

/-- `capital_deployed` (line 815): total buy notional. -/
def capital_deployed_of (trades : List Trade) : ℚ :=
  ((buys_of trades).map (fun t => t.size * t.price)).sum

/-- The `market_pnl` dict (line 831): per-group results of the ledger. -/
def market_pnl_of (resolver : String → Resolution) (trades : List Trade) :
    List MarketResult :=
  (calculate_fifo_pnl_with_resolution resolver trades).1

/-- `profitable_markets` (line 834): groups with positive total PnL. -/
def profitable_markets_of (resolver : String → Resolution) (trades : List Trade) : ℕ :=
  ((market_pnl_of resolver trades).filter (fun m => 0 < m.total_pnl)).length

/-- `losing_markets` (line 835): groups with negative total PnL. -/
def losing_markets_of (resolver : String → Resolution) (trades : List Trade) : ℕ :=
  ((market_pnl_of resolver trades).filter (fun m => m.total_pnl < 0)).length

/-- `total_decided` (line 836). -/
def total_decided_of (resolver : String → Resolution) (trades : List Trade) : ℕ :=
  profitable_markets_of resolver trades + losing_markets_of resolver trades

/-- `win_rate` (line 843). -/
def win_rate_of (resolver : String → Resolution) (trades : List Trade) : ℚ :=
  (profitable_markets_of resolver trades : ℚ) / (total_decided_of resolver trades : ℚ)

/-- `total_pnl` (line 851). -/
def total_pnl_of (resolver : String → Resolution) (trades : List Trade) : ℚ :=
  ((market_pnl_of resolver trades).map (fun m => m.total_pnl)).sum

/-- `roi` (line 855). -/
def roi_of (resolver : String → Resolution) (trades : List Trade) : ℚ :=
  if 0 < capital_deployed_of trades then
    total_pnl_of resolver trades / capital_deployed_of trades
  else 0

/-- `effective_min_roi` (lines 860-866): the ROI floor relaxes with the
win rate. -/
def effective_min_roi_of (win_rate : ℚ) : ℚ :=
  if 9/10 ≤ win_rate then 0
  else if 8/10 ≤ win_rate then MIN_ROI * (25/100)
  else if 7/10 ≤ win_rate then MIN_ROI * (1/2)
  else MIN_ROI

/-- `market_returns` (line 874): total PnL of every group with at least
one trade (every group has one, so this is all groups). -/
def market_returns_of (resolver : String → Resolution) (trades : List Trade) : List ℚ :=
  ((market_pnl_of resolver trades).filter (fun m => 0 < m.trade_count)).map
    (fun m => m.total_pnl)

/-- `sharpe` (lines 874-881). -/
noncomputable def sharpe_trader_of (resolver : String → Resolution)
    (trades : List Trade) : ℝ :=
  sharpe_of (market_returns_of resolver trades)

/-- `first_ts` (line 884). -/
def first_ts_of (trades : List Trade) : ℚ :=
  listMin (trades.map (fun t => t.timestamp))

/-- `last_ts` (line 885). -/
def final_ts_of (trades : List Trade) : ℚ :=
  listMax (trades.map (fun t => t.timestamp))

/-- `active_days` (line 886). -/
def active_days_of (trades : List Trade) : ℚ :=
  max ((final_ts_of trades - first_ts_of trades) / 86400) 1

/-- `days_since_active` (line 887), with the externally supplied now. -/
def days_since_active_of (now : ℚ) (trades : List Trade) : ℚ :=
  (now - final_ts_of trades) / 86400

/-- `recency` (line 890). -/
noncomputable def recency_trader_of (now : ℚ) (trades : List Trade) : ℝ :=
  recency_of (days_since_active_of now trades)

/-- `median_trade` (line 926). -/
def median_trade_of (trades : List Trade) : ℚ :=
  pdMedian (trade_values_of trades)

/-- `score` (lines 930-936). -/
noncomputable def score_of (resolver : String → Resolution) (now : ℚ)
    (trades : List Trade) : ℝ :=
  composite_score (roi_of resolver trades) (win_rate_of resolver trades)
    (sharpe_trader_of resolver trades) trades.length (median_trade_of trades)
    (recency_trader_of now trades)

/-- The metrics record packed at lines 943-970 (exact values; the source
rounds for display). -/
noncomputable def metrics_of (resolver : String → Resolution) (now : ℚ)
    (trades : List Trade) : Metrics :=
  { score := score_of resolver now trades
    roi := roi_of resolver trades
    win_rate := win_rate_of resolver trades
    sharpe := sharpe_trader_of resolver trades
    total_pnl := total_pnl_of resolver trades
    capital_deployed := capital_deployed_of trades
    trades := trades.length
    markets := unique_markets_of trades
    profitable_markets := profitable_markets_of resolver trades
    losing_markets := losing_markets_of resolver trades
    median_trade := median_trade_of trades
    avg_trade := avg_trade_of trades
    active_days := active_days_of trades
    recency := recency_trader_of now trades
    current_positions := (calculate_fifo_pnl_with_resolution resolver trades).2 }

/-- `analyze_trader` (lines 770-970) on an already-normalized trade list:
the fixed, short-circuiting filter chain (trade count, market count,
average buy price, average trade value, deployed capital, decided-market
count, win rate, win-rate-relaxed ROI floor, composite score), each
failure returning `none`.  `now` is the externally supplied current time
(`time.time()`). -/
noncomputable def analyze_trader (resolver : String → Resolution) (now : ℚ)
    (trades : List Trade) : Option Metrics :=
  if trades.length < MIN_TRADES then none
  else if unique_markets_of trades < MIN_MARKETS then none
  else if MAX_AVG_BUY_PRICE < avg_buy_price_of trades then none
  else if MAX_AVG_TRADE_SIZE < avg_trade_of trades then none
  else if capital_deployed_of trades ≤ 0 then none
  else if total_decided_of resolver trades = 0 then none
  else if win_rate_of resolver trades < MIN_WIN_RATE then none
  else if roi_of resolver trades
      < effective_min_roi_of (win_rate_of resolver trades) then none
  else if score_of resolver now trades < (MIN_SCORE : ℚ) then none
  else some (metrics_of resolver now trades)

/-- The fields of the metrics dict that `recommend_copy_strategy` reads
(via `metrics.get`); supplied in full here, so the `get` defaults never
fire. -/
structure RecInput where
  latency_risk : String
  avg_trade : ℚ
  median_trade : ℚ
  win_rate : ℚ
  sharpe : ℚ
  roi_pct : ℚ
  trades : ℕ
  capital_deployed : ℚ
  active_days : ℚ
deriving DecidableEq, Repr

/-- The compounding overlay parameter set of lines 1171-1180. -/
structure CompoundingParams where
  base_size : ℚ
  reinvestment_rate : ℚ
  profit_tier_increment : ℚ
  size_increase_per_tier : ℚ
  max_size_multiplier : ℚ
  drawdown_halve_threshold : ℚ
  drawdown_reset_threshold : ℚ
  drawdown_pause_threshold : ℚ
deriving DecidableEq, Repr

/-- The recommendation record of `recommend_copy_strategy`, restricted to
the decision-bearing fields (the `reasons` and `warnings` string lists
and the two expected-usage display estimates are presentation only).
Python's dict holds `primary_strategy = None` until set, hence
`Option String`; the empty `compounding_params` dict is `none`. -/
structure Recommendation where
  order_type : String
  sizing_method : String
  suggested_size : ℚ
  max_position_pct : ℚ
  primary_strategy : Option String
  compounding_recommended : Bool
  compounding_params : Option CompoundingParams
deriving DecidableEq, Repr

/-- The fixed-amount percentage of lines 1036-1040 (and 1060-1065):
`0.05 + (win_rate - 0.5) * 0.4` above a 50% win rate, else `0.05`. -/
def fixed_size_pct (win_rate : ℚ) : ℚ :=
  if 1/2 < win_rate then 5/100 + (win_rate - 1/2) * (4/10) else 5/100

/-- Step 1 (lines 1010-1019): order type from latency risk. -/
def order_type_of (latency_risk : String) : String :=
  if latency_risk = "HIGH" then "limit"
  else if latency_risk = "MEDIUM" then "hybrid"
  else "market"

/-- `our_vs_trader_ratio` of line 1023. -/
def our_vs_trader (m : RecInput) (portfolio_balance : ℚ) : ℚ :=
  if 0 < m.capital_deployed then portfolio_balance / m.capital_deployed else 1/100

/-- Step 2 (lines 1028-1076): sizing method and raw suggested size from
the trader/portfolio capital comparison; first match wins. -/
def sizing_of (m : RecInput) (portfolio_balance : ℚ) : String × ℚ :=
  if portfolio_balance * (4/10) < m.avg_trade then
    ("fixed_amount", max 1 (portfolio_balance * fixed_size_pct m.win_rate))
  else if 1/2 < our_vs_trader m portfolio_balance
      ∧ our_vs_trader m portfolio_balance < 2 then
    ("pct_of_trade", min 1 (our_vs_trader m portfolio_balance))
  else if our_vs_trader m portfolio_balance < 1/2 then
    if m.avg_trade * our_vs_trader m portfolio_balance < 2 then
      ("fixed_amount", max 2 (portfolio_balance * fixed_size_pct m.win_rate))
    else
      ("pct_of_trade", our_vs_trader m portfolio_balance)
  else
    ("fixed_amount", min m.avg_trade (portfolio_balance * (5/100)))

/-- Step 3 (lines 1079-1088): clamp a fixed amount to the order-type
minimum (`$0.01` for limit orders, `$1` otherwise). -/
def clamp_suggested (order_type : String) (sizing : String × ℚ) : ℚ :=
  if order_type = "limit" then
    if sizing.1 = "fixed_amount" ∧ sizing.2 < 1/100 then 1/100 else sizing.2
  else
    if sizing.1 = "fixed_amount" ∧ sizing.2 < 1 then 1 else sizing.2

/-- Step 4 (lines 1092-1104): max position percent table. -/
def max_position_of (sharpe win_rate : ℚ) : ℚ :=
  if 1 < sharpe ∧ 6/10 < win_rate then 25
  else if 7/10 < win_rate then 30
  else if 1/2 < sharpe ∧ 55/100 < win_rate then 15
  else if 0 < sharpe ∧ 52/100 < win_rate then 10
  else 5

/-- Step 6 (lines 1124-1134): primary strategy label (`None` when no arm
matches, as for the initialized dict entry). -/
def primary_of (order_type sizing_method : String) : Option String :=
  if order_type = "limit" ∧ sizing_method = "fixed_amount" then some "limit_fixed"
  else if order_type = "limit" ∧ sizing_method = "pct_of_trade" then some "limit_proportional"
  else if order_type = "market" ∧ sizing_method = "fixed_amount" then some "market_fixed"
  else if order_type = "market" ∧ sizing_method = "pct_of_trade" then some "market_proportional"
  else if order_type = "hybrid" then some "adaptive"
  else none

/-- The compounding parameter tier of lines 1147-1169, selected by win
rate, with the fixed drawdown thresholds of lines 1177-1179. -/
def compounding_tier (win_rate portfolio_balance : ℚ) : CompoundingParams :=
  if 75/100 ≤ win_rate then
    { base_size := portfolio_balance * (5/100)
      reinvestment_rate := 6/10
      profit_tier_increment := 15
      size_increase_per_tier := 3/10
      max_size_multiplier := 5
      drawdown_halve_threshold := 2/10
      drawdown_reset_threshold := 4/10
      drawdown_pause_threshold := 6/10 }
  else if 65/100 ≤ win_rate then
    { base_size := portfolio_balance * (4/100)
      reinvestment_rate := 1/2
      profit_tier_increment := 20
      size_increase_per_tier := 25/100
      max_size_multiplier := 4
      drawdown_halve_threshold := 2/10
      drawdown_reset_threshold := 4/10
      drawdown_pause_threshold := 6/10 }
  else
    { base_size := portfolio_balance * (3/100)
      reinvestment_rate := 4/10
      profit_tier_increment := 25
      size_increase_per_tier := 2/10
      max_size_multiplier := 3
      drawdown_halve_threshold := 2/10
      drawdown_reset_threshold := 4/10
      drawdown_pause_threshold := 6/10 }

/-- `recommend_copy_strategy` (lines 975-1185), assembled from the step
functions above: order type from latency risk, sizing method, the
order-type minimum clamp, the max position percent table, the primary
strategy label, and the compounding overlay (step 7, lines 1139-1180):
recommended iff `win_rate >= 0.60 and sharpe > 0`, parameters by win-rate
tier, `None` otherwise (the dict's empty parameter set). -/
def recommend_copy_strategy (m : RecInput) (portfolio_balance : ℚ) : Recommendation :=
  { order_type := order_type_of m.latency_risk
    sizing_method := (sizing_of m portfolio_balance).1
    suggested_size := clamp_suggested (order_type_of m.latency_risk)
      (sizing_of m portfolio_balance)
    max_position_pct := max_position_of m.sharpe m.win_rate
    primary_strategy := primary_of (order_type_of m.latency_risk)
      (sizing_of m portfolio_balance).1
    compounding_recommended := decide (6/10 ≤ m.win_rate ∧ 0 < m.sharpe)
    compounding_params :=
      if 6/10 ≤ m.win_rate ∧ 0 < m.sharpe then
        some (compounding_tier m.win_rate portfolio_balance)
      else none }

/-- The invariant bundle claimed for the FIFO replay of one group:
(1) at every point (after any prefix of the trade sequence) every held lot
has strictly positive size; (2) at every point the held share total equals
the buy volume so far minus the sell volume actually matched against lots;
(3) if no sell exceeds the shares held at its moment, the final held total
is total buys minus total sells; (4) the held share total is never
negative; (5) for each sell, the accrued cost basis is nonnegative, never
exceeds the cost of the held lots, depends only on the matched volume
`min(size, held)`, and on an oversell equals exactly the held lots' cost
(so the excess volume deducts no further cost from realized PnL). -/
def FifoInvariants (ts : List Trade) : Prop :=
  (∀ n : ℕ, ∀ l ∈ (replay (ts.take n)).queue, 0 < l.size)
  ∧ (∀ n : ℕ, lotSum (replay (ts.take n)).queue
      = buyVol (ts.take n) - matchedVol (ts.take n))
  ∧ (noOversellAux 0 ts = true →
      lotSum (replay ts).queue = buyVol ts - sellVol ts)
  ∧ (∀ n : ℕ, 0 ≤ lotSum (replay (ts.take n)).queue)
  ∧ (∀ p t s, ts = p ++ t :: s → t.side = Side.sell →
      0 ≤ (fifoSell t.size (replay p).queue).1
      ∧ (fifoSell t.size (replay p).queue).1 ≤ lotCost (replay p).queue
      ∧ (fifoSell t.size (replay p).queue).1
          = (fifoSell (min t.size (lotSum (replay p).queue)) (replay p).queue).1
      ∧ (lotSum (replay p).queue ≤ t.size →
          (fifoSell t.size (replay p).queue).1 = lotCost (replay p).queue))

/-- Concrete witness for the C1 hypotheses: a group with a buy, an
oversold sell, and a further buy. -/
def fifoWitnessTrades : List Trade :=
  [⟨1, "M", "A", Side.buy, 2, 1/2⟩,
   ⟨2, "M", "A", Side.sell, 5, 3/4⟩,
   ⟨3, "M", "A", Side.buy, 1, 1/4⟩]

/-- The claim's winning condition, following the spec's words: the
position wins exactly when the held asset id equals the winning asset id
verbatim, or the token class is YES and the winner is a YES-equivalent
label, or the token class is NO and the winner is a NO-equivalent label;
a resolved answer with no winning asset wins nothing. -/
def ClaimWon (asset_id : String) (winner : Option String) : Prop :=
  match winner with
  | none => False
  | some w =>
      asset_id = w
      ∨ (determine_token_type asset_id = "YES"
          ∧ (w.toUpper = "YES" ∨ w.toUpper = "1" ∨ w.toUpper = "TRUE"))
      ∨ (determine_token_type asset_id = "NO"
          ∧ (w.toUpper = "NO" ∨ w.toUpper = "0" ∨ w.toUpper = "FALSE"))

instance (asset_id : String) (winner : Option String) :
    Decidable (ClaimWon asset_id winner) := by
  unfold ClaimWon
  cases winner <;> infer_instance

/-- The `MarketResult` of one group. -/
def groupResult (market_id asset_id : String) (res : Resolution)
    (g : List Trade) : MarketResult :=
  (processGroup market_id asset_id res g).1

/-- The claimed valuation behaviour of one group: resolved markets pay
`remaining * 1 - cost` with status `won` under the claim's winning
condition and `-cost` with status `lost` otherwise (including a resolved
answer without a winner); unresolved markets and failed lookups mark to
the last trade price with statuses `open` and `unknown`. -/
def ValuationSpec (market_id asset_id : String) (res : Resolution)
    (g : List Trade) : Prop :=
  (∀ w, res = Resolution.resolved w →
      (ClaimWon asset_id w →
        (groupResult market_id asset_id res g).unrealized_pnl
            = (groupResult market_id asset_id res g).position * 1
              - (groupResult market_id asset_id res g).position_cost
          ∧ (groupResult market_id asset_id res g).position_status = "won")
      ∧ (¬ ClaimWon asset_id w →
        (groupResult market_id asset_id res g).unrealized_pnl
            = 0 - (groupResult market_id asset_id res g).position_cost
          ∧ (groupResult market_id asset_id res g).position_status = "lost"))
    ∧ (res = Resolution.unresolved →
        (groupResult market_id asset_id res g).unrealized_pnl
            = (groupResult market_id asset_id res g).position
                * last_price (sortByTimestamp g)
              - (groupResult market_id asset_id res g).position_cost
          ∧ (groupResult market_id asset_id res g).position_status = "open")
    ∧ (res = Resolution.unknown →
        (groupResult market_id asset_id res g).unrealized_pnl
            = (groupResult market_id asset_id res g).position
                * last_price (sortByTimestamp g)
              - (groupResult market_id asset_id res g).position_cost
          ∧ (groupResult market_id asset_id res g).position_status = "unknown")

/-- The spec's scenario group: BUY 10@0.40, BUY 10@0.60, SELL 15@0.70,
leaving 5 shares at cost 3.0. -/
def scenarioTrades : List Trade :=
  [⟨1, "M", "YES", Side.buy, 10, 4/10⟩,
   ⟨2, "M", "YES", Side.buy, 10, 6/10⟩,
   ⟨3, "M", "YES", Side.sell, 15, 7/10⟩]

/-- A fully closed group: one buy matched by one sell at a higher price. -/
def closedPairTrades : List Trade :=
  [⟨1, "M", "A", Side.buy, 2, 1/2⟩,
   ⟨2, "M", "A", Side.sell, 2, 7/10⟩]

/-- A resolver answering every market as resolved with winner `YES`. -/
def yesResolver : String → Resolution := fun _ => Resolution.resolved (some "YES")

/-- A buy of one `YES` share at 0.5 in the given market, at time 0. -/
def buyTrade (mk : String) : Trade := ⟨0, mk, "YES", Side.buy, 1, 1/2⟩

/-- A ten-trade input over three markets that passes every filter of
`analyze_trader` under `yesResolver`. -/
def acceptTrades : List Trade :=
  [buyTrade "M1", buyTrade "M1", buyTrade "M1", buyTrade "M1",
   buyTrade "M2", buyTrade "M2", buyTrade "M2",
   buyTrade "M3", buyTrade "M3", buyTrade "M3"]

/-- The group result of `n` unit buys of `YES` at 0.5 resolved as won. -/
def wonGroup (mk : String) (n : ℕ) : MarketResult :=
  { market := mk, asset := "YES", token_type := "YES", realized_pnl := 0,
    unrealized_pnl := (n : ℚ) - (n : ℚ)/2, total_pnl := (n : ℚ) - (n : ℚ)/2,
    position := (n : ℚ), position_cost := (n : ℚ)/2,
    position_status := "won", volume := (n : ℚ)/2, trade_count := n }

/-- Trades with one decided group (a held, won position) and one
break-even group: exactly one market has nonzero total PnL. -/
def oneDecidedTrades : List Trade :=
  [⟨1, "M1", "YES", Side.buy, 1, 1/2⟩,
   ⟨2, "M2", "YES", Side.buy, 1, 1/2⟩,
   ⟨3, "M2", "YES", Side.sell, 1, 1/2⟩]

/-- A ten-trade input over three markets where every buy is exactly
matched by a sell at the same price, so every group's total PnL is 0;
it passes the trade-count, market-count, buy-price, and trade-size
filters. -/
def flatTrades : List Trade :=
  [⟨0, "M1", "YES", Side.buy, 1, 1/2⟩, ⟨1, "M1", "YES", Side.sell, 1, 1/2⟩,
   ⟨2, "M1", "YES", Side.buy, 1, 1/2⟩, ⟨3, "M1", "YES", Side.sell, 1, 1/2⟩,
   ⟨0, "M2", "YES", Side.buy, 1, 1/2⟩, ⟨1, "M2", "YES", Side.sell, 1, 1/2⟩,
   ⟨2, "M2", "YES", Side.buy, 1, 1/2⟩, ⟨3, "M2", "YES", Side.sell, 1, 1/2⟩,
   ⟨0, "M3", "YES", Side.buy, 1, 1/2⟩, ⟨1, "M3", "YES", Side.sell, 1, 1/2⟩]

/-- A break-even four-trade group result (two buys matched by two sells). -/
def flatGroup (mk : String) (n : ℕ) : MarketResult :=
  { market := mk, asset := "YES", token_type := "YES", realized_pnl := 0,
    unrealized_pnl := 0, total_pnl := 0, position := 0, position_cost := 0,
    position_status := "open", volume := (n : ℚ)/2, trade_count := n }

@[simp]
theorem lotSum_nil : lotSum [] = 0 := rfl

@[simp]
theorem lotSum_cons (l : Lot) (q : List Lot) : lotSum (l :: q) = l.size + lotSum q := by
  simp [lotSum]

@[simp]
theorem lotSum_append (q r : List Lot) : lotSum (q ++ r) = lotSum q + lotSum r := by
  simp [lotSum]

@[simp]
theorem lotCost_nil : lotCost [] = 0 := rfl

@[simp]
theorem lotCost_cons (l : Lot) (q : List Lot) :
    lotCost (l :: q) = l.size * l.price + lotCost q := by
  simp [lotCost]

@[simp]
theorem lotCost_append (q r : List Lot) : lotCost (q ++ r) = lotCost q + lotCost r := by
  simp [lotCost]

theorem lotSum_nonneg (q : List Lot) (h : ∀ l ∈ q, 0 ≤ l.size) : 0 ≤ lotSum q := by
  induction q with
  | nil => simp
  | cons l rest ih =>
      have h1 := h l (by simp)
      have h2 := ih (fun x hx => h x (by simp [hx]))
      simp only [lotSum_cons]
      linarith

theorem lotCost_nonneg (q : List Lot) (h : ∀ l ∈ q, 0 ≤ l.size ∧ 0 ≤ l.price) :
    0 ≤ lotCost q := by
  induction q with
  | nil => simp
  | cons l rest ih =>
      have h1 := h l (by simp)
      have h2 := ih (fun x hx => h x (by simp [hx]))
      simp only [lotCost_cons]
      nlinarith [h1.1, h1.2]

theorem lotSum_eq_zero_iff_nil (q : List Lot) (h : ∀ l ∈ q, 0 < l.size) :
    lotSum q = 0 → q = [] := by
  intro hz
  cases q with
  | nil => rfl
  | cons l rest =>
      exfalso
      have h1 := h l (by simp)
      have h2 := lotSum_nonneg rest (fun x hx => le_of_lt (h x (by simp [hx])))
      simp only [lotSum_cons] at hz
      linarith

/-- FIFO sell matching keeps every lot size strictly positive. -/
theorem fifoSell_pos (rem : ℚ) (q : List Lot) (h : ∀ l ∈ q, 0 < l.size) :
    ∀ l ∈ (fifoSell rem q).2, 0 < l.size := by
  induction q generalizing rem with
  | nil => simp [fifoSell]
  | cons lot rest ih =>
      intro l hl
      have hlot := h lot (by simp)
      have hrest : ∀ x ∈ rest, 0 < x.size := fun x hx => h x (by simp [hx])
      simp only [fifoSell] at hl
      by_cases h0 : 0 < rem
      · rw [if_pos h0] at hl
        by_cases hle : lot.size ≤ rem
        · rw [if_pos hle] at hl
          exact ih (rem - lot.size) hrest l hl
        · rw [if_neg hle] at hl
          rcases List.mem_cons.mp hl with h1 | h1
          · subst h1; simpa using lt_of_not_le hle
          · exact hrest l h1
      · rw [if_neg h0] at hl
        rcases List.mem_cons.mp hl with h1 | h1
        · subst h1; exact hlot
        · exact hrest l h1

/-- FIFO sell matching keeps lot sizes and prices nonnegative. -/
theorem fifoSell_lots_nonneg (rem : ℚ) (q : List Lot)
    (h : ∀ l ∈ q, 0 ≤ l.size ∧ 0 ≤ l.price) :
    ∀ l ∈ (fifoSell rem q).2, 0 ≤ l.size ∧ 0 ≤ l.price := by
  induction q generalizing rem with
  | nil => simp [fifoSell]
  | cons lot rest ih =>
      intro l hl
      have hlot := h lot (by simp)
      have hrest : ∀ x ∈ rest, 0 ≤ x.size ∧ 0 ≤ x.price := fun x hx => h x (by simp [hx])
      simp only [fifoSell] at hl
      by_cases h0 : 0 < rem
      · rw [if_pos h0] at hl
        by_cases hle : lot.size ≤ rem
        · rw [if_pos hle] at hl
          exact ih (rem - lot.size) hrest l hl
        · rw [if_neg hle] at hl
          rcases List.mem_cons.mp hl with h1 | h1
          · subst h1
            refine ⟨by simp; linarith [lt_of_not_le hle], by simpa using hlot.2⟩
          · exact hrest l h1
      · rw [if_neg h0] at hl
        rcases List.mem_cons.mp hl with h1 | h1
        · subst h1; exact hlot
        · exact hrest l h1

/-- A sell consumes exactly `min rem (lotSum q)` shares from the queue. -/
theorem fifoSell_lotSum (rem : ℚ) (q : List Lot) (h : ∀ l ∈ q, 0 < l.size)
    (hrem : 0 ≤ rem) :
    lotSum (fifoSell rem q).2 = lotSum q - min rem (lotSum q) := by
  induction q generalizing rem with
  | nil =>
      simp [fifoSell, min_eq_right hrem]
  | cons lot rest ih =>
      have hlot := h lot (by simp)
      have hrest : ∀ x ∈ rest, 0 < x.size := fun x hx => h x (by simp [hx])
      have hS : 0 ≤ lotSum rest := lotSum_nonneg rest (fun x hx => le_of_lt (hrest x hx))
      simp only [fifoSell]
      by_cases h0 : 0 < rem
      · rw [if_pos h0]
        by_cases hle : lot.size ≤ rem
        · rw [if_pos hle]
          have := ih (rem - lot.size) hrest (by linarith)
          simp only [this, lotSum_cons]
          rcases le_total rem (lot.size + lotSum rest) with hc | hc
          · rw [min_eq_left (by linarith), min_eq_left (by linarith)]
            ring
          · rw [min_eq_right (by linarith), min_eq_right (by linarith)]
            ring
        · rw [if_neg hle]
          have hlt := lt_of_not_le hle
          simp only [lotSum_cons]
          rw [min_eq_left (by linarith)]
          ring
      · rw [if_neg h0]
        have h0' : rem = 0 := le_antisymm (le_of_not_lt h0) hrem
        subst h0'
        simp only [lotSum_cons]
        rw [min_eq_left (by linarith)]
        ring

/-- The accrued sell cost is exactly the cost removed from the queue. -/
theorem fifoSell_lotCost (rem : ℚ) (q : List Lot) :
    lotCost (fifoSell rem q).2 = lotCost q - (fifoSell rem q).1 := by
  induction q generalizing rem with
  | nil => simp [fifoSell]
  | cons lot rest ih =>
      simp only [fifoSell]
      by_cases h0 : 0 < rem
      · rw [if_pos h0]
        by_cases hle : lot.size ≤ rem
        · rw [if_pos hle]
          have := ih (rem - lot.size)
          simp only [this, lotCost_cons]
          ring
        · rw [if_neg hle]
          simp only [lotCost_cons]
          ring
      · rw [if_neg h0]
        simp only [lotCost_cons]
        ring

/-- The accrued sell cost is nonnegative. -/
theorem fifoSell_cost_nonneg (rem : ℚ) (q : List Lot)
    (h : ∀ l ∈ q, 0 ≤ l.size ∧ 0 ≤ l.price) :
    0 ≤ (fifoSell rem q).1 := by
  induction q generalizing rem with
  | nil => simp [fifoSell]
  | cons lot rest ih =>
      have hlot := h lot (by simp)
      have hrest : ∀ x ∈ rest, 0 ≤ x.size ∧ 0 ≤ x.price := fun x hx => h x (by simp [hx])
      simp only [fifoSell]
      by_cases h0 : 0 < rem
      · rw [if_pos h0]
        by_cases hle : lot.size ≤ rem
        · rw [if_pos hle]
          dsimp only
          have := ih (rem - lot.size) hrest
          nlinarith [hlot.1, hlot.2]
        · rw [if_neg hle]
          dsimp only
          nlinarith [hlot.2]
      · rw [if_neg h0]

/-- The accrued sell cost never exceeds the cost of the held lots. -/
theorem fifoSell_cost_le (rem : ℚ) (q : List Lot)
    (h : ∀ l ∈ q, 0 ≤ l.size ∧ 0 ≤ l.price) :
    (fifoSell rem q).1 ≤ lotCost q := by
  have h1 := fifoSell_lotCost rem q
  have h2 := lotCost_nonneg (fifoSell rem q).2 (fifoSell_lots_nonneg rem q h)
  linarith

/-- Selling at least the whole held volume accrues exactly the cost of
all held lots -- the excess volume adds no further cost. -/
theorem fifoSell_oversell (rem : ℚ) (q : List Lot) (h : ∀ l ∈ q, 0 < l.size)
    (hle : lotSum q ≤ rem) :
    (fifoSell rem q).1 = lotCost q := by
  induction q generalizing rem with
  | nil => simp [fifoSell]
  | cons lot rest ih =>
      have hlot := h lot (by simp)
      have hrest : ∀ x ∈ rest, 0 < x.size := fun x hx => h x (by simp [hx])
      have hS : 0 ≤ lotSum rest := lotSum_nonneg rest (fun x hx => le_of_lt (hrest x hx))
      simp only [lotSum_cons] at hle
      have h0 : 0 < rem := by linarith
      have hsz : lot.size ≤ rem := by linarith
      simp only [fifoSell, if_pos h0, if_pos hsz, lotCost_cons]
      have := ih (rem - lot.size) hrest (by linarith)
      linarith

/-- The accrued sell cost depends only on the matched volume
`min rem (lotSum q)`. -/
theorem fifoSell_cost_matched (rem : ℚ) (q : List Lot) (h : ∀ l ∈ q, 0 < l.size)
    (_hrem : 0 ≤ rem) :
    (fifoSell rem q).1 = (fifoSell (min rem (lotSum q)) q).1 := by
  rcases le_total rem (lotSum q) with hc | hc
  · rw [min_eq_left hc]
  · rw [min_eq_right hc]
    rw [fifoSell_oversell rem q h hc, fifoSell_oversell (lotSum q) q h (le_refl _)]

@[simp]
theorem buyVol_nil : buyVol [] = 0 := rfl

theorem buyVol_cons (t : Trade) (ts : List Trade) :
    buyVol (t :: ts) = (if t.side = Side.buy then t.size else 0) + buyVol ts := by
  by_cases h : t.side = Side.buy <;> simp [buyVol, h]

@[simp]
theorem sellVol_nil : sellVol [] = 0 := rfl

theorem sellVol_cons (t : Trade) (ts : List Trade) :
    sellVol (t :: ts) = (if t.side = Side.sell then t.size else 0) + sellVol ts := by
  by_cases h : t.side = Side.sell <;> simp [sellVol, h]

@[simp]
theorem buyCost_nil : buyCost [] = 0 := rfl

theorem buyCost_cons (t : Trade) (ts : List Trade) :
    buyCost (t :: ts) = (if t.side = Side.buy then t.size * t.price else 0) + buyCost ts := by
  by_cases h : t.side = Side.buy <;> simp [buyCost, h]

@[simp]
theorem sellRevenue_nil : sellRevenue [] = 0 := rfl

theorem sellRevenue_cons (t : Trade) (ts : List Trade) :
    sellRevenue (t :: ts)
      = (if t.side = Side.sell then t.size * t.price else 0) + sellRevenue ts := by
  by_cases h : t.side = Side.sell <;> simp [sellRevenue, h]

theorem side_eq_buy_or_sell (t : Trade) : t.side = Side.buy ∨ t.side = Side.sell := by
  cases h : t.side
  · exact Or.inl rfl
  · exact Or.inr rfl

theorem buyVol_cons_buy {t : Trade} (ts : List Trade) (h : t.side = Side.buy) :
    buyVol (t :: ts) = t.size + buyVol ts := by
  simp [buyVol_cons, h]

theorem buyVol_cons_sell {t : Trade} (ts : List Trade) (h : t.side = Side.sell) :
    buyVol (t :: ts) = buyVol ts := by
  simp [buyVol_cons, h]

theorem sellVol_cons_buy {t : Trade} (ts : List Trade) (h : t.side = Side.buy) :
    sellVol (t :: ts) = sellVol ts := by
  simp [sellVol_cons, h]

theorem sellVol_cons_sell {t : Trade} (ts : List Trade) (h : t.side = Side.sell) :
    sellVol (t :: ts) = t.size + sellVol ts := by
  simp [sellVol_cons, h]

theorem buyCost_cons_buy {t : Trade} (ts : List Trade) (h : t.side = Side.buy) :
    buyCost (t :: ts) = t.size * t.price + buyCost ts := by
  simp [buyCost_cons, h]

theorem buyCost_cons_sell {t : Trade} (ts : List Trade) (h : t.side = Side.sell) :
    buyCost (t :: ts) = buyCost ts := by
  simp [buyCost_cons, h]

theorem sellRevenue_cons_buy {t : Trade} (ts : List Trade) (h : t.side = Side.buy) :
    sellRevenue (t :: ts) = sellRevenue ts := by
  simp [sellRevenue_cons, h]

theorem sellRevenue_cons_sell {t : Trade} (ts : List Trade) (h : t.side = Side.sell) :
    sellRevenue (t :: ts) = t.size * t.price + sellRevenue ts := by
  simp [sellRevenue_cons, h]

/-- Generalized replay invariant: strict lot-size positivity is preserved
by every trade step. -/
theorem foldl_lots_pos (ts : List Trade) (st : LedgerState)
    (hts : ∀ t ∈ ts, 0 < t.size) (hst : ∀ l ∈ st.queue, 0 < l.size) :
    ∀ l ∈ (ts.foldl stepTrade st).queue, 0 < l.size := by
  induction ts generalizing st with
  | nil => simpa using hst
  | cons t rest ih =>
      have ht := hts t (by simp)
      have hrest : ∀ x ∈ rest, 0 < x.size := fun x hx => hts x (by simp [hx])
      refine ih (stepTrade st t) hrest ?_
      rcases side_eq_buy_or_sell t with hb | hs
      · intro l hl
        simp only [stepTrade, hb] at hl
        rcases List.mem_append.mp hl with h1 | h1
        · exact hst l h1
        · rcases List.mem_singleton.mp h1 with rfl
          simpa using ht
      · intro l hl
        simp only [stepTrade, hs] at hl
        exact fifoSell_pos t.size st.queue hst l hl

/-- Generalized replay invariant: nonnegative lot sizes and prices are
preserved by every trade step. -/
theorem foldl_lots_nonneg (ts : List Trade) (st : LedgerState)
    (hts : ∀ t ∈ ts, 0 ≤ t.size ∧ 0 ≤ t.price)
    (hst : ∀ l ∈ st.queue, 0 ≤ l.size ∧ 0 ≤ l.price) :
    ∀ l ∈ (ts.foldl stepTrade st).queue, 0 ≤ l.size ∧ 0 ≤ l.price := by
  induction ts generalizing st with
  | nil => simpa using hst
  | cons t rest ih =>
      have ht := hts t (by simp)
      have hrest : ∀ x ∈ rest, 0 ≤ x.size ∧ 0 ≤ x.price := fun x hx => hts x (by simp [hx])
      refine ih (stepTrade st t) hrest ?_
      rcases side_eq_buy_or_sell t with hb | hs
      · intro l hl
        simp only [stepTrade, hb] at hl
        rcases List.mem_append.mp hl with h1 | h1
        · exact hst l h1
        · rcases List.mem_singleton.mp h1 with rfl
          simpa using ht
      · intro l hl
        simp only [stepTrade, hs] at hl
        exact fifoSell_lots_nonneg t.size st.queue hst l hl

/-- Every lot held at any point of a replay of positive-size trades has
strictly positive size. -/
theorem replay_lots_pos (ts : List Trade) (hts : ∀ t ∈ ts, 0 < t.size) :
    ∀ l ∈ (replay ts).queue, 0 < l.size :=
  foldl_lots_pos ts ⟨[], 0, 0⟩ hts (by simp)

/-- The held share total of a replay follows the abstract
`heldAux` recursion (each sell removes `min size held`). -/
theorem foldl_lotSum (ts : List Trade) (st : LedgerState)
    (hts : ∀ t ∈ ts, 0 < t.size) (hst : ∀ l ∈ st.queue, 0 < l.size) :
    lotSum (ts.foldl stepTrade st).queue = heldAux (lotSum st.queue) ts := by
  induction ts generalizing st with
  | nil => simp [heldAux]
  | cons t rest ih =>
      have ht := hts t (by simp)
      have hrest : ∀ x ∈ rest, 0 < x.size := fun x hx => hts x (by simp [hx])
      rcases side_eq_buy_or_sell t with hb | hs
      · have hq : ∀ l ∈ (stepTrade st t).queue, 0 < l.size := by
          intro l hl
          simp only [stepTrade, hb] at hl
          rcases List.mem_append.mp hl with h1 | h1
          · exact hst l h1
          · rcases List.mem_singleton.mp h1 with rfl
            simpa using ht
        have := ih (stepTrade st t) hrest hq
        simp only [List.foldl_cons, this, heldAux, hb]
        have hq2 : lotSum (stepTrade st t).queue = lotSum st.queue + t.size := by
          simp [stepTrade, hb, lotSum]
        rw [hq2]
      · have hq : ∀ l ∈ (stepTrade st t).queue, 0 < l.size := by
          intro l hl
          simp only [stepTrade, hs] at hl
          exact fifoSell_pos t.size st.queue hst l hl
        have := ih (stepTrade st t) hrest hq
        simp only [List.foldl_cons, this, heldAux, hs]
        have hq2 : lotSum (stepTrade st t).queue
            = lotSum st.queue - min t.size (lotSum st.queue) := by
          simp only [stepTrade, hs]
          exact fifoSell_lotSum t.size st.queue hst (le_of_lt ht)
        rw [hq2]

/-- `heldAux` against the buy volume and matched sell volume. -/
theorem heldAux_eq_buy_sub_matched (ts : List Trade) (h : ℚ) :
    heldAux h ts = h + buyVol ts - matchedAux h ts := by
  induction ts generalizing h with
  | nil => simp [heldAux, matchedAux]
  | cons t rest ih =>
      rcases side_eq_buy_or_sell t with hb | hs
      · simp only [heldAux, matchedAux, hb, buyVol_cons_buy rest hb]
        rw [ih]
        ring
      · simp only [heldAux, matchedAux, hs, buyVol_cons_sell rest hs]
        rw [ih]
        ring

/-- Under no overselling, `heldAux` is buys minus sells. -/
theorem heldAux_noOversell (ts : List Trade) (h : ℚ)
    (hno : noOversellAux h ts = true) :
    heldAux h ts = h + buyVol ts - sellVol ts := by
  induction ts generalizing h with
  | nil => simp [heldAux]
  | cons t rest ih =>
      rcases side_eq_buy_or_sell t with hb | hs
      · simp only [noOversellAux, hb] at hno
        simp only [heldAux, hb, buyVol_cons_buy rest hb, sellVol_cons_buy rest hb]
        rw [ih _ hno]
        ring
      · simp only [noOversellAux, hs, Bool.and_eq_true, decide_eq_true_eq] at hno
        simp only [heldAux, hs, buyVol_cons_sell rest hs, sellVol_cons_sell rest hs]
        rw [min_eq_left hno.1, ih _ hno.2]
        ring

/-- Realized PnL bookkeeping: at every point,
`realized_pnl = sell revenue - buy cost + cost of the held lots`. -/
theorem foldl_realized (ts : List Trade) (st : LedgerState) :
    (ts.foldl stepTrade st).realized_pnl + lotCost st.queue
      = st.realized_pnl + sellRevenue ts - buyCost ts
        + lotCost (ts.foldl stepTrade st).queue := by
  induction ts generalizing st with
  | nil => simp
  | cons t rest ih =>
      have hrec := ih (stepTrade st t)
      simp only [List.foldl_cons] at hrec ⊢
      rcases side_eq_buy_or_sell t with hb | hs
      · have hstep_r : (stepTrade st t).realized_pnl = st.realized_pnl := by
          simp [stepTrade, hb]
        have hstep_c : lotCost (stepTrade st t).queue
            = lotCost st.queue + t.size * t.price := by
          simp [stepTrade, hb, lotCost]
        rw [sellRevenue_cons_buy rest hb, buyCost_cons_buy rest hb]
        rw [hstep_r, hstep_c] at hrec
        linarith
      · have hstep_r : (stepTrade st t).realized_pnl
            = st.realized_pnl + (t.size * t.price - (fifoSell t.size st.queue).1) := by
          simp [stepTrade, hs]
        have hstep_c : lotCost (stepTrade st t).queue
            = lotCost st.queue - (fifoSell t.size st.queue).1 := by
          have hc := fifoSell_lotCost t.size st.queue
          simp only [stepTrade, hs]
          exact hc
        rw [sellRevenue_cons_sell rest hs, buyCost_cons_sell rest hs]
        rw [hstep_r, hstep_c] at hrec
        linarith

/-- Realized PnL of a whole replay. -/
theorem replay_realized (ts : List Trade) :
    (replay ts).realized_pnl
      = sellRevenue ts - buyCost ts + lotCost (replay ts).queue := by
  have := foldl_realized ts ⟨[], 0, 0⟩
  simpa [replay] using this

/-- C1: for every group of normalized trades (positive sizes and prices),
the FIFO replay satisfies the conservation and oversell-safety invariants:
lot sizes stay strictly positive, held shares are buys minus matched sell
volume at every point, no-oversell sequences conserve buys minus sells
exactly, and an oversold sell leaves shares and accrued cost nonnegative
with the excess volume adding no further cost-basis deduction. -/
theorem fifo_ledger_invariants (ts : List Trade)
    (hsize : ∀ t ∈ ts, 0 < t.size) (hprice : ∀ t ∈ ts, 0 < t.price) :
    FifoInvariants ts := by
  have hsize' : ∀ n : ℕ, ∀ t ∈ ts.take n, 0 < t.size := by
    intro n t ht
    exact hsize t (List.take_subset n ts ht)
  have hpos : ∀ n : ℕ, ∀ l ∈ (replay (ts.take n)).queue, 0 < l.size := by
    intro n
    exact replay_lots_pos (ts.take n) (hsize' n)
  refine ⟨hpos, ?_, ?_, ?_, ?_⟩
  · intro n
    have h1 := foldl_lotSum (ts.take n) ⟨[], 0, 0⟩ (hsize' n) (by simp)
    have h2 := heldAux_eq_buy_sub_matched (ts.take n) 0
    simp only [replay, lotSum_nil] at h1 ⊢
    rw [h1, h2, matchedVol]
    ring
  · intro hno
    have h1 := foldl_lotSum ts ⟨[], 0, 0⟩ hsize (by simp)
    have h2 := heldAux_noOversell ts 0 hno
    simp only [replay, lotSum_nil] at h1 ⊢
    rw [h1, h2]
    ring
  · intro n
    exact lotSum_nonneg _ (fun l hl => le_of_lt (hpos n l hl))
  · intro p t s heq hsell
    have hmem : ∀ x ∈ p, x ∈ ts := by
      intro x hx
      rw [heq]
      exact List.mem_append.mpr (Or.inl hx)
    have hqpos : ∀ l ∈ (replay p).queue, 0 < l.size :=
      replay_lots_pos p (fun x hx => hsize x (hmem x hx))
    have hqnn : ∀ l ∈ (replay p).queue, 0 ≤ l.size ∧ 0 ≤ l.price := by
      refine foldl_lots_nonneg p ⟨[], 0, 0⟩ ?_ (by simp)
      intro x hx
      exact ⟨le_of_lt (hsize x (hmem x hx)), le_of_lt (hprice x (hmem x hx))⟩
    have htmem : t ∈ ts := by
      rw [heq]
      exact List.mem_append.mpr (Or.inr (by simp))
    have htsize : 0 ≤ t.size := le_of_lt (hsize t htmem)
    refine ⟨fifoSell_cost_nonneg t.size (replay p).queue hqnn,
      fifoSell_cost_le t.size (replay p).queue hqnn,
      fifoSell_cost_matched t.size (replay p).queue hqpos htsize,
      fun hov => fifoSell_oversell t.size (replay p).queue hqpos hov⟩

/-- Witness: the C1 hypotheses hold for `fifoWitnessTrades` and the
invariant bundle follows by the theorem. -/
theorem fifo_ledger_invariants_witness :
    (∀ t ∈ fifoWitnessTrades, 0 < t.size)
    ∧ (∀ t ∈ fifoWitnessTrades, 0 < t.price)
    ∧ FifoInvariants fifoWitnessTrades :=
  ⟨by norm_num [fifoWitnessTrades], by norm_num [fifoWitnessTrades],
    fifo_ledger_invariants fifoWitnessTrades
      (by norm_num [fifoWitnessTrades]) (by norm_num [fifoWitnessTrades])⟩

theorem buyCost_perm {g1 g2 : List Trade} (h : g1.Perm g2) : buyCost g1 = buyCost g2 :=
  List.Perm.sum_eq (List.Perm.map _ (List.Perm.filter _ h))

theorem sellRevenue_perm {g1 g2 : List Trade} (h : g1.Perm g2) :
    sellRevenue g1 = sellRevenue g2 :=
  List.Perm.sum_eq (List.Perm.map _ (List.Perm.filter _ h))

theorem sortByTimestamp_perm (g : List Trade) : (sortByTimestamp g).Perm g :=
  List.perm_insertionSort _ g

theorem mem_sortByTimestamp {t : Trade} {g : List Trade} (h : t ∈ sortByTimestamp g) :
    t ∈ g :=
  (List.Perm.mem_iff (sortByTimestamp_perm g)).mp h

/-- C3: every emitted `MarketResult` satisfies
`total_pnl = realized_pnl + unrealized_pnl`, and a fully closed group
(zero remaining shares after replay, sizes positive) has
`total_pnl = total sell revenue - total buy cost` exactly. -/
theorem pnl_identity (market_id asset_id : String) (res : Resolution) (g : List Trade) :
    (processGroup market_id asset_id res g).1.total_pnl
      = (processGroup market_id asset_id res g).1.realized_pnl
        + (processGroup market_id asset_id res g).1.unrealized_pnl
    ∧ ((∀ t ∈ g, 0 < t.size) →
        (processGroup market_id asset_id res g).1.position = 0 →
        (processGroup market_id asset_id res g).1.total_pnl
          = sellRevenue g - buyCost g) := by
  constructor
  · rfl
  · intro hsize hpos
    have hpos' : lotSum (replay (sortByTimestamp g)).queue = 0 := hpos
    have hsorted : ∀ t ∈ sortByTimestamp g, 0 < t.size :=
      fun t ht => hsize t (mem_sortByTimestamp ht)
    have hqnil : (replay (sortByTimestamp g)).queue = [] :=
      lotSum_eq_zero_iff_nil _ (replay_lots_pos _ hsorted) hpos'
    have hreal := replay_realized (sortByTimestamp g)
    rw [hqnil] at hreal
    simp only [lotCost_nil, add_zero] at hreal
    have hnotdust : ¬ ((1 : ℚ)/100 < lotSum (replay (sortByTimestamp g)).queue) := by
      rw [hpos']
      norm_num
    show (replay (sortByTimestamp g)).realized_pnl
        + (if (1 : ℚ)/100 < lotSum (replay (sortByTimestamp g)).queue then _ else ((0 : ℚ), "open")).1
      = sellRevenue g - buyCost g
    rw [if_neg hnotdust, hreal,
      sellRevenue_perm (sortByTimestamp_perm g), buyCost_perm (sortByTimestamp_perm g)]
    ring

/-- Computation rule for `String.toUpper` (via the Batteries lemma for
`String.map`). -/
theorem toUpper_data (s : String) :
    s.toUpper = String.mk (s.data.map Char.toUpper) :=
  String.map_eq Char.toUpper s

/-- For a nonempty asset id (the normalizer never produces the empty
string), the source's `position_won` decision agrees with the claim's
winning condition. -/
theorem position_won_iff_ClaimWon (asset_id : String) (winner : Option String)
    (hasset : asset_id ≠ "") :
    position_won asset_id (determine_token_type asset_id) winner = true
      ↔ ClaimWon asset_id winner := by
  cases winner with
  | none => simp [position_won, ClaimWon]
  | some w =>
      by_cases hw : w = ""
      · subst hw
        have hu : "".toUpper = "" := by
          rw [toUpper_data]
          decide
        simp [position_won, ClaimWon, hu, hasset]
      · simp only [position_won, ClaimWon, if_neg hw]
        by_cases h1 : asset_id = w
        · simp [h1]
        · rw [if_neg h1]
          by_cases h2 : determine_token_type asset_id = "YES"
              ∧ (w.toUpper = "YES" ∨ w.toUpper = "1" ∨ w.toUpper = "TRUE")
          · simp [h2, h2.1, h2.2]
          · rw [if_neg h2]
            by_cases h3 : determine_token_type asset_id = "NO"
                ∧ (w.toUpper = "NO" ∨ w.toUpper = "0" ∨ w.toUpper = "FALSE")
            · simp [h3, h3.1, h3.2]
            · rw [if_neg h3]
              simp [h1, h2, h3]

theorem groupResult_position (market_id asset_id : String) (res : Resolution)
    (g : List Trade) :
    (groupResult market_id asset_id res g).position
      = lotSum (replay (sortByTimestamp g)).queue := rfl

theorem groupResult_position_cost (market_id asset_id : String) (res : Resolution)
    (g : List Trade) :
    (groupResult market_id asset_id res g).position_cost
      = lotCost (replay (sortByTimestamp g)).queue := rfl

/-- Unfolding of the valuation block (lines 691-715) of `processGroup`
for a resolved market. -/
theorem groupResult_valuation_resolved (market_id asset_id : String)
    (w : Option String) (g : List Trade) :
    ((groupResult market_id asset_id (Resolution.resolved w) g).unrealized_pnl,
      (groupResult market_id asset_id (Resolution.resolved w) g).position_status)
    = (if 1/100 < lotSum (replay (sortByTimestamp g)).queue then
        if position_won asset_id (determine_token_type asset_id) w then
          (lotSum (replay (sortByTimestamp g)).queue * 1
            - lotCost (replay (sortByTimestamp g)).queue, "won")
        else
          (0 - lotCost (replay (sortByTimestamp g)).queue, "lost")
      else (0, "open")) := rfl

/-- Unfolding of the valuation block (lines 717-722) of `processGroup`
for an unresolved market. -/
theorem groupResult_valuation_unresolved (market_id asset_id : String)
    (g : List Trade) :
    ((groupResult market_id asset_id Resolution.unresolved g).unrealized_pnl,
      (groupResult market_id asset_id Resolution.unresolved g).position_status)
    = (if 1/100 < lotSum (replay (sortByTimestamp g)).queue then
        (lotSum (replay (sortByTimestamp g)).queue * last_price (sortByTimestamp g)
          - lotCost (replay (sortByTimestamp g)).queue, "open")
      else (0, "open")) := rfl

/-- Unfolding of the valuation block (lines 724-729) of `processGroup`
for a failed resolution lookup. -/
theorem groupResult_valuation_unknown (market_id asset_id : String)
    (g : List Trade) :
    ((groupResult market_id asset_id Resolution.unknown g).unrealized_pnl,
      (groupResult market_id asset_id Resolution.unknown g).position_status)
    = (if 1/100 < lotSum (replay (sortByTimestamp g)).queue then
        (lotSum (replay (sortByTimestamp g)).queue * last_price (sortByTimestamp g)
          - lotCost (replay (sortByTimestamp g)).queue, "unknown")
      else (0, "open")) := rfl

/-- C2: for a group whose remaining shares exceed the 0.01 materiality
threshold, the ledger's valuation follows the resolver outcome exactly
as specified by `ValuationSpec`. -/
theorem resolution_valuation (market_id asset_id : String) (res : Resolution)
    (g : List Trade) (hasset : asset_id ≠ "")
    (hpos : 1/100 < (groupResult market_id asset_id res g).position) :
    ValuationSpec market_id asset_id res g := by
  unfold ValuationSpec
  rw [groupResult_position] at hpos
  refine ⟨?_, ?_, ?_⟩
  · rintro w rfl
    have hv := groupResult_valuation_resolved market_id asset_id w g
    rw [if_pos hpos] at hv
    constructor
    · intro hwon
      have hb : position_won asset_id (determine_token_type asset_id) w = true :=
        (position_won_iff_ClaimWon asset_id w hasset).mpr hwon
      rw [if_pos hb] at hv
      rw [Prod.ext_iff] at hv
      rw [groupResult_position, groupResult_position_cost]
      exact ⟨hv.1, hv.2⟩
    · intro hwon
      have hb : position_won asset_id (determine_token_type asset_id) w = false := by
        cases hpw : position_won asset_id (determine_token_type asset_id) w with
        | false => rfl
        | true => exact absurd ((position_won_iff_ClaimWon asset_id w hasset).mp hpw) hwon
      rw [if_neg (by simp [hb])] at hv
      rw [Prod.ext_iff] at hv
      rw [groupResult_position_cost]
      exact ⟨hv.1, hv.2⟩
  · rintro rfl
    have hv := groupResult_valuation_unresolved market_id asset_id g
    rw [if_pos hpos] at hv
    rw [Prod.ext_iff] at hv
    rw [groupResult_position, groupResult_position_cost]
    exact ⟨hv.1, hv.2⟩
  · rintro rfl
    have hv := groupResult_valuation_unknown market_id asset_id g
    rw [if_pos hpos] at hv
    rw [Prod.ext_iff] at hv
    rw [groupResult_position, groupResult_position_cost]
    exact ⟨hv.1, hv.2⟩

/-- Witness for C2: the scenario group resolved in favour of the held
`YES` asset satisfies the hypotheses and hence the valuation spec. -/
theorem resolution_valuation_witness :
    ("YES" : String) ≠ ""
    ∧ 1/100 < (groupResult "M" "YES" (Resolution.resolved (some "YES")) scenarioTrades).position
    ∧ ValuationSpec "M" "YES" (Resolution.resolved (some "YES")) scenarioTrades := by
  have hasset : ("YES" : String) ≠ "" := by decide
  have hpos : 1/100
      < (groupResult "M" "YES" (Resolution.resolved (some "YES")) scenarioTrades).position := by
    rw [groupResult_position]
    norm_num [scenarioTrades, sortByTimestamp, List.insertionSort, List.orderedInsert,
      replay, stepTrade, fifoSell, lotSum]
  exact ⟨hasset, hpos,
    resolution_valuation "M" "YES" (Resolution.resolved (some "YES")) scenarioTrades hasset hpos⟩

/-- Witness for C3: the closed pair satisfies the hypotheses, its total
PnL is realized plus unrealized, and equals sell revenue minus buy cost. -/
theorem pnl_identity_witness :
    (∀ t ∈ closedPairTrades, 0 < t.size)
    ∧ (processGroup "M" "A" Resolution.unknown closedPairTrades).1.position = 0
    ∧ (processGroup "M" "A" Resolution.unknown closedPairTrades).1.total_pnl
        = (processGroup "M" "A" Resolution.unknown closedPairTrades).1.realized_pnl
          + (processGroup "M" "A" Resolution.unknown closedPairTrades).1.unrealized_pnl
    ∧ (processGroup "M" "A" Resolution.unknown closedPairTrades).1.total_pnl
        = sellRevenue closedPairTrades - buyCost closedPairTrades := by
  have hsize : ∀ t ∈ closedPairTrades, 0 < t.size := by norm_num [closedPairTrades]
  have hzero : (processGroup "M" "A" Resolution.unknown closedPairTrades).1.position = 0 := by
    norm_num [processGroup, closedPairTrades, sortByTimestamp, List.insertionSort,
      List.orderedInsert, replay, stepTrade, fifoSell, lotSum]
  exact ⟨hsize, hzero,
    (pnl_identity "M" "A" Resolution.unknown closedPairTrades).1,
    (pnl_identity "M" "A" Resolution.unknown closedPairTrades).2 hsize hzero⟩

/-- Unfolding of the `current_positions` emission of `processGroup`
(lines 738-747): an entry is appended only inside the
`remaining_shares > 0.01` block, and only for status `open`. -/
theorem processGroup_currentPosition (market_id asset_id : String) (res : Resolution)
    (g : List Trade) :
    (processGroup market_id asset_id res g).2
      = (if 1/100 < lotSum (replay (sortByTimestamp g)).queue
            ∧ (processGroup market_id asset_id res g).1.position_status = "open" then
          some
            { market := market_id
              asset := asset_id
              token_type := determine_token_type asset_id
              size := lotSum (replay (sortByTimestamp g)).queue
              avg_price := if 0 < lotSum (replay (sortByTimestamp g)).queue then
                  lotCost (replay (sortByTimestamp g)).queue
                    / lotSum (replay (sortByTimestamp g)).queue
                else 0
              current_value := (processGroup market_id asset_id res g).1.unrealized_pnl
                + lotCost (replay (sortByTimestamp g)).queue
              last_trade_ts := last_ts (sortByTimestamp g) }
        else none) := rfl

/-- Counterexample to C6 as stated: a fully closed group has final status
`open` (the initial value, never revised below the materiality threshold)
yet emits no `CurrentPosition`. -/
theorem current_position_counterexample :
    (processGroup "M" "A" Resolution.unknown closedPairTrades).1.position_status = "open"
    ∧ (processGroup "M" "A" Resolution.unknown closedPairTrades).2 = none := by
  constructor
  · norm_num [processGroup, closedPairTrades, sortByTimestamp, List.insertionSort,
      List.orderedInsert, replay, stepTrade, fifoSell, lotSum]
  · rw [processGroup_currentPosition]
    rw [if_neg]
    intro hc
    have h1 := hc.1
    have : lotSum (replay (sortByTimestamp closedPairTrades)).queue = 0 := by
      norm_num [closedPairTrades, sortByTimestamp, List.insertionSort,
        List.orderedInsert, replay, stepTrade, fifoSell, lotSum]
    rw [this] at h1
    norm_num at h1

/-- C6 (amended): a `CurrentPosition` is emitted exactly for groups whose
final status is `open` and whose remaining shares exceed the 0.01
materiality threshold, carrying size, average price
`remainingCost / remainingShares`, current value
`unrealizedPnl + remainingCost`, and the last trade timestamp. -/
theorem current_position_emission (market_id asset_id : String) (res : Resolution)
    (g : List Trade) :
    (processGroup market_id asset_id res g).2
      = (if 1/100 < (processGroup market_id asset_id res g).1.position
            ∧ (processGroup market_id asset_id res g).1.position_status = "open" then
          some
            { market := market_id
              asset := asset_id
              token_type := (processGroup market_id asset_id res g).1.token_type
              size := (processGroup market_id asset_id res g).1.position
              avg_price := (processGroup market_id asset_id res g).1.position_cost
                / (processGroup market_id asset_id res g).1.position
              current_value := (processGroup market_id asset_id res g).1.unrealized_pnl
                + (processGroup market_id asset_id res g).1.position_cost
              last_trade_ts := last_ts (sortByTimestamp g) }
        else none) := by
  have hp : (processGroup market_id asset_id res g).1.position
      = lotSum (replay (sortByTimestamp g)).queue := rfl
  have hcost : (processGroup market_id asset_id res g).1.position_cost
      = lotCost (replay (sortByTimestamp g)).queue := rfl
  have htok : (processGroup market_id asset_id res g).1.token_type
      = determine_token_type asset_id := rfl
  rw [processGroup_currentPosition, hp, hcost, htok]
  by_cases hc : 1/100 < lotSum (replay (sortByTimestamp g)).queue
      ∧ (processGroup market_id asset_id res g).1.position_status = "open"
  · rw [if_pos hc, if_pos hc, if_pos (by linarith [hc.1] : (0 : ℚ)
      < lotSum (replay (sortByTimestamp g)).queue)]
  · rw [if_neg hc, if_neg hc]

/-- C8: whenever the trader's average trade exceeds 40% of the portfolio
balance, the recommender selects fixed-amount sizing with suggested size
`max(1, portfolio * (0.05 + max(0, winRate - 0.5) * 0.4))`; in
particular, for avgTrade 2000, portfolio 150 and winRate 0.65 it
recommends a fixed amount of 16.5. -/
theorem sizing_of_large_trade (m : RecInput) (pb : ℚ)
    (h : pb * (4/10) < m.avg_trade) :
    sizing_of m pb = ("fixed_amount", max 1 (pb * fixed_size_pct m.win_rate)) := by
  unfold sizing_of
  rw [if_pos h]

theorem fixed_size_pct_eq_max (win_rate : ℚ) :
    fixed_size_pct win_rate = 5/100 + max 0 (win_rate - 1/2) * (4/10) := by
  unfold fixed_size_pct
  by_cases hw : 1/2 < win_rate
  · rw [if_pos hw, max_eq_right (by linarith)]
  · rw [if_neg hw, max_eq_left (by linarith [le_of_not_lt hw])]
    ring

theorem clamp_suggested_of_ge_one (order_type : String) (s : ℚ) (hs : 1 ≤ s) :
    clamp_suggested order_type ("fixed_amount", s) = s := by
  unfold clamp_suggested
  by_cases ho : order_type = "limit"
  · rw [if_pos ho, if_neg]
    rintro ⟨-, hlt⟩
    dsimp only at hlt
    linarith
  · rw [if_neg ho, if_neg]
    rintro ⟨-, hlt⟩
    dsimp only at hlt
    linarith

/-- C8: whenever the trader's average trade exceeds 40% of the portfolio
balance, the recommender selects fixed-amount sizing with suggested size
`max(1, portfolio * (0.05 + max(0, winRate - 0.5) * 0.4))`; in
particular, for avgTrade 2000, portfolio 150 and winRate 0.65 it
recommends a fixed amount of 16.5. -/
theorem fixed_amount_sizing (m : RecInput) (pb : ℚ)
    (h : pb * (4/10) < m.avg_trade) :
    ((recommend_copy_strategy m pb).sizing_method = "fixed_amount"
      ∧ (recommend_copy_strategy m pb).suggested_size
          = max 1 (pb * (5/100 + max 0 (m.win_rate - 1/2) * (4/10))))
    ∧ ((recommend_copy_strategy
          ⟨"LOW", 2000, 2000, 65/100, 0, 0, 10, 10000, 30⟩ 150).sizing_method
        = "fixed_amount"
      ∧ (recommend_copy_strategy
          ⟨"LOW", 2000, 2000, 65/100, 0, 0, 10, 10000, 30⟩ 150).suggested_size = 33/2) := by
  have key : ∀ (m' : RecInput) (pb' : ℚ), pb' * (4/10) < m'.avg_trade →
      (recommend_copy_strategy m' pb').sizing_method = "fixed_amount"
      ∧ (recommend_copy_strategy m' pb').suggested_size
          = max 1 (pb' * (5/100 + max 0 (m'.win_rate - 1/2) * (4/10))) := by
    intro m' pb' h'
    have hsz := sizing_of_large_trade m' pb' h'
    constructor
    · show (sizing_of m' pb').1 = "fixed_amount"
      rw [hsz]
    · show clamp_suggested (order_type_of m'.latency_risk) (sizing_of m' pb') = _
      rw [hsz, clamp_suggested_of_ge_one _ _ (le_max_left _ _), fixed_size_pct_eq_max]
  refine ⟨key m pb h, key ⟨"LOW", 2000, 2000, 65/100, 0, 0, 10, 10000, 30⟩ 150 (by norm_num)
    |>.imp_right ?_⟩
  intro h2
  rw [h2]
  norm_num

/-- Witness for C8: the scenario-3 input satisfies the hypothesis
`avgTrade > 0.4 * portfolio` and the theorem's conclusion follows. -/
theorem fixed_amount_sizing_witness :
    ((150 : ℚ) * (4/10) < 2000)
    ∧ (((recommend_copy_strategy
          ⟨"LOW", 2000, 2000, 65/100, 0, 0, 10, 10000, 30⟩ 150).sizing_method
            = "fixed_amount"
        ∧ (recommend_copy_strategy
          ⟨"LOW", 2000, 2000, 65/100, 0, 0, 10, 10000, 30⟩ 150).suggested_size
            = max 1 (150 * (5/100 + max 0 ((65/100 : ℚ) - 1/2) * (4/10))))) := by
  have hlt : (150 : ℚ) * (4/10) < 2000 := by norm_num
  exact ⟨hlt,
    (fixed_amount_sizing ⟨"LOW", 2000, 2000, 65/100, 0, 0, 10, 10000, 30⟩ 150 hlt).1⟩

/-- C9: the compounding overlay is recommended exactly when
`winRate >= 0.60` and `sharpe > 0`; when recommended the parameters are
the win-rate tier of `compounding_tier` (base 5%/4%/3% of portfolio,
reinvest 60%/50%/40%, tier increments 15/20/25 dollars, +30%/+25%/+20%
per tier, caps 5x/4x/3x, fixed drawdown thresholds 0.20/0.40/0.60
regardless of tier), and when not recommended no parameters are
produced. -/
theorem compounding_overlay (m : RecInput) (pb : ℚ) :
    ((recommend_copy_strategy m pb).compounding_recommended = true
        ↔ 6/10 ≤ m.win_rate ∧ 0 < m.sharpe)
    ∧ (recommend_copy_strategy m pb).compounding_params
        = (if 6/10 ≤ m.win_rate ∧ 0 < m.sharpe then
            some (compounding_tier m.win_rate pb)
          else none)
    ∧ (compounding_tier m.win_rate pb).drawdown_halve_threshold = 2/10
    ∧ (compounding_tier m.win_rate pb).drawdown_reset_threshold = 4/10
    ∧ (compounding_tier m.win_rate pb).drawdown_pause_threshold = 6/10 := by
  refine ⟨?_, rfl, ?_, ?_, ?_⟩
  · show decide (6/10 ≤ m.win_rate ∧ 0 < m.sharpe) = true ↔ _
    exact decide_eq_true_iff
  all_goals
    unfold compounding_tier
    by_cases h75 : 75/100 ≤ m.win_rate
    · rw [if_pos h75]
    · rw [if_neg h75]
      by_cases h65 : 65/100 ≤ m.win_rate
      · rw [if_pos h65]
      · rw [if_neg h65]

/-- An accepted trader's metrics record is the pipeline's. -/
theorem analyze_trader_some {resolver : String → Resolution} {now : ℚ}
    {trades : List Trade} {m : Metrics}
    (h : analyze_trader resolver now trades = some m) :
    m = metrics_of resolver now trades := by
  unfold analyze_trader at h
  split_ifs at h
  exact (Option.some.inj h).symm

/-- Closed form of the Sharpe computation: zero when fewer than two
returns or zero variance, else mean over standard deviation. -/
theorem sharpe_of_eq (l : List ℚ) :
    sharpe_of l
      = (if 1 < l.length ∧ 0 < npVariance l then
          ((listMean l : ℚ) : ℝ) / Real.sqrt ((npVariance l : ℚ) : ℝ)
        else 0) := by
  unfold sharpe_of
  by_cases h1 : 1 < l.length
  · rw [if_pos h1]
    dsimp only
    by_cases h2 : 0 < npVariance l
    · have hstd : 0 < Real.sqrt ((npVariance l : ℚ) : ℝ) :=
        Real.sqrt_pos.mpr (by exact_mod_cast h2)
      rw [if_pos hstd, if_pos ⟨h1, h2⟩]
    · have hstd : ¬ 0 < Real.sqrt ((npVariance l : ℚ) : ℝ) := by
        rw [Real.sqrt_pos]
        exact_mod_cast h2
      rw [if_neg hstd, if_neg (by tauto)]
  · rw [if_neg h1, if_neg (by tauto)]

theorem toUpper_YES : ("YES" : String).toUpper = "YES" := by
  rw [toUpper_data]
  decide

theorem determine_token_type_YES : determine_token_type "YES" = "YES" := by
  unfold determine_token_type
  rw [if_neg (by decide)]
  rw [toUpper_YES]
  rw [if_pos (by decide)]

theorem acceptTrades_groupKeys :
    groupKeys acceptTrades = [("M1", "YES"), ("M2", "YES"), ("M3", "YES")] := by
  simp [groupKeys, acceptTrades, buyTrade,
    List.dedup_cons_of_mem, List.dedup_cons_of_not_mem]

theorem acceptTrades_group1 :
    processGroup "M1" "YES" (Resolution.resolved (some "YES"))
      [buyTrade "M1", buyTrade "M1", buyTrade "M1", buyTrade "M1"]
    = (wonGroup "M1" 4, none) := by
  norm_num [processGroup, buyTrade, wonGroup, sortByTimestamp, List.insertionSort,
    List.orderedInsert, replay, stepTrade, fifoSell, lotSum, lotCost,
    determine_token_type_YES, position_won, last_price, last_ts, toUpper_YES,
    eq_false (show ¬ ("YES" : String) = "" by decide),
    eq_false (show ¬ ("won" : String) = "open" by decide)]

theorem acceptTrades_group2 (mk : String) :
    processGroup mk "YES" (Resolution.resolved (some "YES"))
      [buyTrade mk, buyTrade mk, buyTrade mk]
    = (wonGroup mk 3, none) := by
  norm_num [processGroup, buyTrade, wonGroup, sortByTimestamp, List.insertionSort,
    List.orderedInsert, replay, stepTrade, fifoSell, lotSum, lotCost,
    determine_token_type_YES, position_won, last_price, last_ts, toUpper_YES,
    eq_false (show ¬ ("YES" : String) = "" by decide),
    eq_false (show ¬ ("won" : String) = "open" by decide)]

theorem acceptTrades_market_pnl :
    market_pnl_of yesResolver acceptTrades
      = [wonGroup "M1" 4, wonGroup "M2" 3, wonGroup "M3" 3] := by
  have hf1 : acceptTrades.filter (fun t => t.market = "M1" ∧ t.asset = "YES")
      = [buyTrade "M1", buyTrade "M1", buyTrade "M1", buyTrade "M1"] := by
    simp [acceptTrades, buyTrade]
  have hf2 : acceptTrades.filter (fun t => t.market = "M2" ∧ t.asset = "YES")
      = [buyTrade "M2", buyTrade "M2", buyTrade "M2"] := by
    simp [acceptTrades, buyTrade]
  have hf3 : acceptTrades.filter (fun t => t.market = "M3" ∧ t.asset = "YES")
      = [buyTrade "M3", buyTrade "M3", buyTrade "M3"] := by
    simp [acceptTrades, buyTrade]
  unfold market_pnl_of calculate_fifo_pnl_with_resolution
  rw [acceptTrades_groupKeys]
  simp only [List.map_cons, List.map_nil]
  rw [hf1, hf2, hf3]
  rw [show yesResolver "M1" = Resolution.resolved (some "YES") from rfl,
    show yesResolver "M2" = Resolution.resolved (some "YES") from rfl,
    show yesResolver "M3" = Resolution.resolved (some "YES") from rfl,
    acceptTrades_group1, acceptTrades_group2 "M2", acceptTrades_group2 "M3"]

theorem acceptTrades_returns :
    market_returns_of yesResolver acceptTrades = [2, 3/2, 3/2] := by
  rw [market_returns_of, acceptTrades_market_pnl]
  norm_num [wonGroup]

theorem acceptTrades_win_rate : win_rate_of yesResolver acceptTrades = 1 := by
  unfold win_rate_of total_decided_of profitable_markets_of losing_markets_of
  rw [acceptTrades_market_pnl]
  norm_num [wonGroup]

theorem acceptTrades_roi : roi_of yesResolver acceptTrades = 1 := by
  unfold roi_of total_pnl_of capital_deployed_of buys_of
  rw [acceptTrades_market_pnl]
  norm_num [wonGroup, acceptTrades, buyTrade]

theorem acceptTrades_recency : recency_trader_of 0 acceptTrades = 1 := by
  unfold recency_trader_of recency_of days_since_active_of final_ts_of
  have hz : ((0 : ℚ) - listMax (acceptTrades.map (fun t => t.timestamp))) / 86400 = 0 := by
    norm_num [acceptTrades, buyTrade, listMax]
  rw [hz]
  have : -(693/1000 : ℝ) * ((0 : ℚ) : ℝ) / ((RECENCY_HALF_LIFE_DAYS : ℚ) : ℝ) = 0 := by
    norm_num
  rw [this, Real.exp_zero]
  rw [max_eq_left (by norm_num)]

theorem acceptTrades_not_low_score :
    ¬ score_of yesResolver 0 acceptTrades < ((MIN_SCORE : ℚ) : ℝ) := by
  unfold score_of composite_score
  rw [acceptTrades_win_rate, acceptTrades_roi, acceptTrades_recency]
  have hmedian : median_trade_of acceptTrades = 1/2 := by
    norm_num [median_trade_of, trade_values_of, pdMedian, acceptTrades, buyTrade,
      List.insertionSort, List.orderedInsert]
  rw [hmedian]
  have hsharpe : -2 ≤ max (sharpe_trader_of yesResolver acceptTrades) (-2) :=
    le_max_right _ _
  have hlogb : 0 ≤ Real.logb 10 ((acceptTrades.length : ℝ) + 1) := by
    refine Real.logb_nonneg (by norm_num) ?_
    have : (0 : ℝ) ≤ (acceptTrades.length : ℝ) := by positivity
    linarith
  rw [not_lt]
  have hmin : min ((((1 : ℚ) : ℝ)) * 100) 200 = 100 := by
    norm_num
  have hms : ((MIN_SCORE : ℚ) : ℝ) = 5 := by
    norm_num [MIN_SCORE]
  rw [hmin, hms]
  push_cast
  nlinarith [hsharpe, hlogb]

/-- The ten-trade input is accepted: every filter of `analyze_trader`
passes and the pipeline metrics are returned. -/
theorem analyze_acceptTrades :
    analyze_trader yesResolver 0 acceptTrades
      = some (metrics_of yesResolver 0 acceptTrades) := by
  unfold analyze_trader
  rw [if_neg (by norm_num [acceptTrades, MIN_TRADES])]
  rw [if_neg (by decide)]
  rw [if_neg (by
    norm_num [avg_buy_price_of, buys_of, listMean, acceptTrades, buyTrade,
      MAX_AVG_BUY_PRICE])]
  rw [if_neg (by
    norm_num [avg_trade_of, trade_values_of, listMean, acceptTrades, buyTrade,
      MAX_AVG_TRADE_SIZE])]
  rw [if_neg (by
    norm_num [capital_deployed_of, buys_of, acceptTrades, buyTrade])]
  rw [if_neg (by
    unfold total_decided_of profitable_markets_of losing_markets_of
    rw [acceptTrades_market_pnl]
    norm_num [wonGroup])]
  rw [if_neg (by
    rw [acceptTrades_win_rate]
    norm_num [MIN_WIN_RATE])]
  rw [if_neg (by
    rw [acceptTrades_roi, acceptTrades_win_rate]
    norm_num [effective_min_roi_of])]
  rw [if_neg acceptTrades_not_low_score]

/-- C4: for every accepted trader, the composite score is exactly the
recency weight times
`0.25 min(ROI*100, 200) + 0.25 winRate*100 + 0.20 max(sharpe,-2)*15
 + 0.15 log10(tradeCount+1)*15 + 0.15 (100/(medianTradeValue+50))*20`,
where the trade count is the number of valid normalized trades and the
median trade value is the median of `size*price` over those trades. -/
theorem composite_score_formula (resolver : String → Resolution) (now : ℚ)
    (trades : List Trade) (m : Metrics)
    (h : analyze_trader resolver now trades = some m) :
    m.score = m.recency
        * ((25/100) * min ((m.roi : ℝ) * 100) 200
          + (25/100) * ((m.win_rate : ℝ) * 100)
          + (20/100) * (max m.sharpe (-2) * 15)
          + (15/100) * (Real.logb 10 ((m.trades : ℝ) + 1) * 15)
          + (15/100) * ((100 / ((m.median_trade : ℝ) + 50)) * 20))
    ∧ m.trades = trades.length
    ∧ m.median_trade = pdMedian (trades.map (fun t => t.size * t.price))
    ∧ m.recency = recency_trader_of now trades := by
  have hm := analyze_trader_some h
  subst hm
  simp only [metrics_of]
  refine ⟨?_, trivial, rfl, trivial⟩
  unfold score_of composite_score
  ring

/-- Witness for C4: the accepted ten-trade input satisfies the
hypothesis and hence the score formula. -/
theorem composite_score_formula_witness :
    analyze_trader yesResolver 0 acceptTrades
        = some (metrics_of yesResolver 0 acceptTrades)
    ∧ (metrics_of yesResolver 0 acceptTrades).score
        = (metrics_of yesResolver 0 acceptTrades).recency
          * ((25/100) * min (((metrics_of yesResolver 0 acceptTrades).roi : ℝ) * 100) 200
            + (25/100) * (((metrics_of yesResolver 0 acceptTrades).win_rate : ℝ) * 100)
            + (20/100) * (max (metrics_of yesResolver 0 acceptTrades).sharpe (-2) * 15)
            + (15/100) * (Real.logb 10
                (((metrics_of yesResolver 0 acceptTrades).trades : ℝ) + 1) * 15)
            + (15/100) * ((100
                / (((metrics_of yesResolver 0 acceptTrades).median_trade : ℝ) + 50)) * 20)) :=
  ⟨analyze_acceptTrades,
    (composite_score_formula yesResolver 0 acceptTrades _ analyze_acceptTrades).1⟩

/-- C5 (amended): the Sharpe-like score is mean over population standard
deviation of the total PnL of ALL `(market, asset)` groups with at least
one trade (not only the decided ones), and is 0 when there are fewer
than two such groups or their variance is zero. -/
theorem sharpe_over_all_groups (resolver : String → Resolution) (now : ℚ)
    (trades : List Trade) (m : Metrics)
    (h : analyze_trader resolver now trades = some m) :
    m.sharpe
      = (if 1 < (market_returns_of resolver trades).length
            ∧ 0 < npVariance (market_returns_of resolver trades) then
          ((listMean (market_returns_of resolver trades) : ℚ) : ℝ)
            / Real.sqrt ((npVariance (market_returns_of resolver trades) : ℚ) : ℝ)
        else 0)
    ∧ market_returns_of resolver trades
        = ((market_pnl_of resolver trades).filter (fun r => 0 < r.trade_count)).map
            (fun r => r.total_pnl) := by
  have hm := analyze_trader_some h
  subst hm
  exact ⟨sharpe_of_eq _, rfl⟩

/-- Witness for the amended C5 at the accepted ten-trade input. -/
theorem sharpe_over_all_groups_witness :
    analyze_trader yesResolver 0 acceptTrades
        = some (metrics_of yesResolver 0 acceptTrades)
    ∧ (metrics_of yesResolver 0 acceptTrades).sharpe
        = (if 1 < (market_returns_of yesResolver acceptTrades).length
              ∧ 0 < npVariance (market_returns_of yesResolver acceptTrades) then
            ((listMean (market_returns_of yesResolver acceptTrades) : ℚ) : ℝ)
              / Real.sqrt ((npVariance (market_returns_of yesResolver acceptTrades) : ℚ) : ℝ)
          else 0) :=
  ⟨analyze_acceptTrades,
    (sharpe_over_all_groups yesResolver 0 acceptTrades _ analyze_acceptTrades).1⟩

theorem oneDecided_market_pnl :
    market_pnl_of yesResolver oneDecidedTrades
      = [{ market := "M1", asset := "YES", token_type := "YES", realized_pnl := 0,
           unrealized_pnl := 1/2, total_pnl := 1/2, position := 1, position_cost := 1/2,
           position_status := "won", volume := 1/2, trade_count := 1 },
         { market := "M2", asset := "YES", token_type := "YES", realized_pnl := 0,
           unrealized_pnl := 0, total_pnl := 0, position := 0, position_cost := 0,
           position_status := "open", volume := 1, trade_count := 2 }] := by
  have hkeys : groupKeys oneDecidedTrades = [("M1", "YES"), ("M2", "YES")] := by decide
  unfold market_pnl_of calculate_fifo_pnl_with_resolution
  rw [hkeys]
  simp only [List.map_cons, List.map_nil]
  have hf1 : oneDecidedTrades.filter (fun t => t.market = "M1" ∧ t.asset = "YES")
      = [⟨1, "M1", "YES", Side.buy, 1, 1/2⟩] := by
    simp [oneDecidedTrades]
  have hf2 : oneDecidedTrades.filter (fun t => t.market = "M2" ∧ t.asset = "YES")
      = [⟨2, "M2", "YES", Side.buy, 1, 1/2⟩, ⟨3, "M2", "YES", Side.sell, 1, 1/2⟩] := by
    simp [oneDecidedTrades]
  rw [hf1, hf2]
  rw [show yesResolver "M1" = Resolution.resolved (some "YES") from rfl,
    show yesResolver "M2" = Resolution.resolved (some "YES") from rfl]
  norm_num [processGroup, sortByTimestamp, List.insertionSort, List.orderedInsert,
    replay, stepTrade, fifoSell, lotSum, lotCost, determine_token_type_YES,
    position_won, last_price, last_ts, toUpper_YES,
    eq_false (show ¬ ("YES" : String) = "" by decide),
    eq_false (show ¬ ("won" : String) = "open" by decide)]

/-- Counterexample to C5 as stated: with exactly one decided market
(one group with nonzero total PnL) the claim demands a Sharpe of 0, but
the source computes it over all groups (filtered only by
`trade_count > 0`) and returns 1. -/
theorem sharpe_decided_counterexample :
    ((market_pnl_of yesResolver oneDecidedTrades).filter
        (fun r => r.total_pnl ≠ 0)).length = 1
    ∧ sharpe_trader_of yesResolver oneDecidedTrades = 1
    ∧ sharpe_trader_of yesResolver oneDecidedTrades ≠ 0 := by
  have hreturns : market_returns_of yesResolver oneDecidedTrades = [1/2, 0] := by
    rw [market_returns_of, oneDecided_market_pnl]
    norm_num
  have hval : sharpe_trader_of yesResolver oneDecidedTrades = 1 := by
    unfold sharpe_trader_of
    rw [hreturns, sharpe_of_eq]
    have hvar : npVariance [(1 : ℚ)/2, 0] = 1/16 := by
      norm_num [npVariance, listMean]
    have hmean : listMean [(1 : ℚ)/2, 0] = 1/4 := by
      norm_num [listMean]
    rw [if_pos (by rw [hvar]; norm_num), hmean, hvar]
    have hsqrt : Real.sqrt (((1 : ℚ)/16 : ℚ) : ℝ) = 1/4 := by
      rw [show ((((1 : ℚ)/16 : ℚ) : ℝ)) = (1/4 : ℝ)^2 by norm_num,
        Real.sqrt_sq (by norm_num : (0:ℝ) ≤ 1/4)]
    rw [hsqrt]
    norm_num
  refine ⟨?_, hval, by rw [hval]; norm_num⟩
  rw [oneDecided_market_pnl]
  norm_num

/-- C7 (amended): the recency weight is
`max(exp(-0.693 * daysInactive / 30), 0.05)` with
`daysInactive = (now - lastTradeTs)/86400` -- the source's decay constant
is the literal `0.693`, a truncation of `ln 2`. -/
theorem recency_weight_formula (resolver : String → Resolution) (now : ℚ)
    (trades : List Trade) (m : Metrics)
    (h : analyze_trader resolver now trades = some m) :
    m.recency
      = max (Real.exp (-(693/1000)
          * ((days_since_active_of now trades : ℚ) : ℝ) / 30)) (5/100)
    ∧ days_since_active_of now trades = (now - final_ts_of trades) / 86400 := by
  have hm := analyze_trader_some h
  subst hm
  refine ⟨?_, rfl⟩
  show recency_trader_of now trades = _
  unfold recency_trader_of recency_of
  norm_num [RECENCY_HALF_LIFE_DAYS]

/-- Witness for the amended C7 at the accepted ten-trade input. -/
theorem recency_weight_formula_witness :
    analyze_trader yesResolver 0 acceptTrades
        = some (metrics_of yesResolver 0 acceptTrades)
    ∧ (metrics_of yesResolver 0 acceptTrades).recency
        = max (Real.exp (-(693/1000)
            * ((days_since_active_of 0 acceptTrades : ℚ) : ℝ) / 30)) (5/100) :=
  ⟨analyze_acceptTrades,
    (recency_weight_formula yesResolver 0 acceptTrades _ analyze_acceptTrades).1⟩

/-- Counterexample to C7 as stated: at 30 days of inactivity (one
half-life) the claim's `exp(-ln 2 * 30/30)` gives exactly 1/2, while the
source's `exp(-0.693 * 30/30)` is strictly larger, because
`0.693 < ln 2`. -/
theorem recency_not_ln_two :
    recency_of 30 ≠ max (Real.exp (-(Real.log 2) * ((30 : ℚ) : ℝ) / 30)) (5/100) := by
  have hlog : (693/1000 : ℝ) < Real.log 2 := by
    have h9 := Real.log_two_gt_d9
    norm_num at h9 ⊢
    linarith
  have hexp2 : Real.exp (693/1000) < 2 := by
    have := Real.exp_lt_exp.mpr hlog
    rwa [Real.exp_log (by norm_num : (0:ℝ) < 2)] at this
  have hhalf : (1/2 : ℝ) < Real.exp (-(693/1000)) := by
    rw [Real.exp_neg]
    rw [show (1/2 : ℝ) = 2⁻¹ by norm_num]
    exact inv_strictAnti₀ (Real.exp_pos _) hexp2
  have hrhs : max (Real.exp (-(Real.log 2) * ((30 : ℚ) : ℝ) / 30)) (5/100) = 1/2 := by
    have harg : -(Real.log 2) * ((30 : ℚ) : ℝ) / 30 = -(Real.log 2) := by
      push_cast
      ring
    rw [harg, Real.exp_neg, Real.exp_log (by norm_num : (0:ℝ) < 2)]
    rw [max_eq_left (by norm_num)]
    norm_num
  have hlhs : recency_of 30 = Real.exp (-(693/1000)) := by
    unfold recency_of
    have harg : -(693/1000 : ℝ) * ((30 : ℚ) : ℝ) / ((RECENCY_HALF_LIFE_DAYS : ℚ) : ℝ)
        = -(693/1000) := by
      norm_num [RECENCY_HALF_LIFE_DAYS]
    rw [harg]
    rw [max_eq_left (by linarith)]
  rw [hlhs, hrhs]
  intro hcontra
  rw [hcontra] at hhalf
  exact lt_irrefl _ hhalf

/-- C10: a trader none of whose `(market, asset)` groups is decided --
every group's total PnL is exactly 0 -- is rejected by `analyze_trader`
(no metrics are produced), preventing the win-rate division `0/0`. -/
theorem no_decided_rejected (resolver : String → Resolution) (now : ℚ)
    (trades : List Trade)
    (h0 : ∀ r ∈ market_pnl_of resolver trades, r.total_pnl = 0) :
    analyze_trader resolver now trades = none := by
  have hp : profitable_markets_of resolver trades = 0 := by
    unfold profitable_markets_of
    rw [List.length_eq_zero, List.filter_eq_nil_iff]
    intro r hr
    simp [h0 r hr]
  have hl : losing_markets_of resolver trades = 0 := by
    unfold losing_markets_of
    rw [List.length_eq_zero, List.filter_eq_nil_iff]
    intro r hr
    simp [h0 r hr]
  have hdec : total_decided_of resolver trades = 0 := by
    unfold total_decided_of
    rw [hp, hl]
  unfold analyze_trader
  split_ifs <;> rfl

theorem flatTrades_market_pnl :
    market_pnl_of yesResolver flatTrades
      = [flatGroup "M1" 4, flatGroup "M2" 4, flatGroup "M3" 2] := by
  have hkeys : groupKeys flatTrades = [("M1", "YES"), ("M2", "YES"), ("M3", "YES")] := by
    decide
  unfold market_pnl_of calculate_fifo_pnl_with_resolution
  rw [hkeys]
  simp only [List.map_cons, List.map_nil]
  have hf1 : flatTrades.filter (fun t => t.market = "M1" ∧ t.asset = "YES")
      = [⟨0, "M1", "YES", Side.buy, 1, 1/2⟩, ⟨1, "M1", "YES", Side.sell, 1, 1/2⟩,
         ⟨2, "M1", "YES", Side.buy, 1, 1/2⟩, ⟨3, "M1", "YES", Side.sell, 1, 1/2⟩] := by
    simp [flatTrades]
  have hf2 : flatTrades.filter (fun t => t.market = "M2" ∧ t.asset = "YES")
      = [⟨0, "M2", "YES", Side.buy, 1, 1/2⟩, ⟨1, "M2", "YES", Side.sell, 1, 1/2⟩,
         ⟨2, "M2", "YES", Side.buy, 1, 1/2⟩, ⟨3, "M2", "YES", Side.sell, 1, 1/2⟩] := by
    simp [flatTrades]
  have hf3 : flatTrades.filter (fun t => t.market = "M3" ∧ t.asset = "YES")
      = [⟨0, "M3", "YES", Side.buy, 1, 1/2⟩, ⟨1, "M3", "YES", Side.sell, 1, 1/2⟩] := by
    simp [flatTrades]
  rw [hf1, hf2, hf3]
  rw [show yesResolver "M1" = Resolution.resolved (some "YES") from rfl,
    show yesResolver "M2" = Resolution.resolved (some "YES") from rfl,
    show yesResolver "M3" = Resolution.resolved (some "YES") from rfl]
  norm_num [processGroup, flatGroup, sortByTimestamp, List.insertionSort,
    List.orderedInsert, replay, stepTrade, fifoSell, lotSum, lotCost,
    determine_token_type_YES, position_won, last_price, last_ts, toUpper_YES]

/-- Witness for C10: `flatTrades` has only undecided groups and is
rejected by the aggregator. -/
theorem no_decided_rejected_witness :
    (∀ r ∈ market_pnl_of yesResolver flatTrades, r.total_pnl = 0)
    ∧ analyze_trader yesResolver 0 flatTrades = none := by
  have h0 : ∀ r ∈ market_pnl_of yesResolver flatTrades, r.total_pnl = 0 := by
    rw [flatTrades_market_pnl]
    intro r hr
    simp only [List.mem_cons, List.not_mem_nil, or_false] at hr
    rcases hr with rfl | rfl | rfl <;> rfl
  exact ⟨h0, no_decided_rejected yesResolver 0 flatTrades h0⟩

end Polymarket
